import Mathlib

/-!
Verification development for the `kyoko` configuration tool (`src/config.py`).

The tool is a single-file Python CLI with three subcommands:
  * `client add|list|remove` — CRUD over two JSON files (`users.json` and
    `xray/config.json`),
  * `connstr [-u UUID]` — emits a `vmess://<base64(json)>` connection string,
  * `generate [-d DOMAIN] [-t ws|xhttp]` — instantiates template files.

We shallowly embed the program's data model and operations.  Strings are
modelled as `List Char` (Python `str` is a sequence of code points).  The two
JSON documents are modelled by the fields the program consumes: `users.json`
is a string-to-string mapping (an association list with distinct keys, since
Python `dict` keys are unique, in insertion order), and `xray/config.json` is
modelled by `inbounds[0].settings.clients` (an ordered list of one-key
`id`-objects, modelled by the list of their `id` strings, the only field the
program reads) together with `inbounds[0].streamSettings` (network tag plus
the transport-specific path object).

Python's `json.dumps(..., indent=4, sort_keys=True)` and `json.loads` are
embedded by an explicit printer and a whitespace-skipping parser for the
shapes the program persists; `base64.b64encode`/`b64decode` by an explicit
encoder/decoder on byte lists; `str.encode()` (UTF-8) restricted to ASCII
data by `Char.toNat`.  The parser handles the escape-free JSON string
fragment; the `niceStr` hypothesis (printable ASCII, no quote, no backslash)
delimits the data on which this embedding agrees with Python's `json`
module, which escapes quotes/backslashes/control characters on output.
-/

/-! ## Basic character and whitespace utilities -/

/-- JSON whitespace characters recognised by Python's `json.loads`. -/
def isWsChar (c : Char) : Bool :=
  c = ' ' || c = '\n' || c = '\t' || c = '\r'

/-- Drop leading JSON whitespace. -/
def skipWs : List Char → List Char
  | [] => []
  | c :: cs => if isWsChar c then skipWs cs else c :: cs

/-- The list consists of whitespace only. -/
def wsOnly (l : List Char) : Bool := l.all isWsChar

/-- `n` space characters. -/
def spaces (n : Nat) : List Char := List.replicate n ' '

/-- A JSON string literal (no escaping; see `niceStr`). -/
def strLit (s : List Char) : List Char := '"' :: s ++ ['"']

/-- A JSON value as the program persists it in a flat object position:
either a string or `null` (the latter arises from Python `None`). -/
def jvText : Option (List Char) → List Char
  | some s => strLit s
  | none => "null".toList

/-- Printable-ASCII strings free of `"` and `\`: on these our JSON printer
agrees with Python's `json.dumps` (which would escape those characters). -/
def niceStr (s : List Char) : Prop :=
  ∀ c ∈ s, 32 ≤ c.toNat ∧ c.toNat < 128 ∧ c ≠ '"' ∧ c ≠ '\\'

instance (s : List Char) : Decidable (niceStr s) := by
  unfold niceStr; infer_instance

/-- A flat-object value our printer and Python's agree on. -/
def niceVal : Option (List Char) → Prop
  | some s => niceStr s
  | none => True

instance (v : Option (List Char)) : Decidable (niceVal v) :=
  match v with
  | some s => inferInstanceAs (Decidable (niceStr s))
  | none => inferInstanceAs (Decidable True)

/-- A flat-object entry our printer and Python's agree on. -/
def niceEntry (e : List Char × Option (List Char)) : Prop :=
  niceStr e.1 ∧ niceVal e.2

instance (e : List Char × Option (List Char)) : Decidable (niceEntry e) :=
  inferInstanceAs (Decidable (_ ∧ _))

/-! ## Association lists (Python `dict` in insertion order) -/

/-- Key lookup in an association list (Python `d[k]`, first occurrence). -/
def lookupKey (k : List Char) : List (List Char × α) → Option α
  | [] => none
  | (k', v) :: t => if k' = k then some v else lookupKey k t

/-- Python `d[k] = v`: overwrite in place if the key exists (keeping its
position, as `dict` does), otherwise append at the end. -/
def updEntry : List (List Char × α) → List Char → α → List (List Char × α)
  | [], k, v => [(k, v)]
  | (k', v') :: t, k, v => if k' = k then (k, v) :: t else (k', v') :: updEntry t k v

/-- Python `del d[k]`: remove the (first) entry with the given key. -/
def removeEntry : List (List Char × α) → List Char → List (List Char × α)
  | [], _ => []
  | (k', v') :: t, k => if k' = k then t else (k', v') :: removeEntry t k

/-- Code-point lexicographic order on keys (Python string `<=`). -/
def keyLE : List Char → List Char → Bool
  | [], _ => true
  | _ :: _, [] => false
  | a :: as, b :: bs => if a = b then keyLE as bs else decide (a < b)

/-- Insert one entry into a key-sorted association list. -/
def insertEntry (e : List Char × α) : List (List Char × α) → List (List Char × α)
  | [] => [e]
  | x :: xs => if keyLE e.1 x.1 then e :: x :: xs else x :: insertEntry e xs

/-- Sort an association list by key (the effect of `sort_keys=True`). -/
def sortEntries : List (List Char × α) → List (List Char × α)
  | [] => []
  | e :: es => insertEntry e (sortEntries es)

/-! ## The flat-JSON-object printer and parser

`flatObjText` prints a JSON object whose values are strings or `null`,
parameterised by the whitespace Python emits after the opening brace
(`openLead`), after each comma (`sepLead`) and before the closing brace
(`after`).  With `openLead = sepLead = "\n    "` and `after = "\n"` this is
`json.dumps(d, indent=4)` for a flat object; with `openLead = ""`,
`sepLead = " "` and `after = ""` it is the default `json.dumps(d)`. -/

/-- One object entry, `"key": value`. -/
def entryTextCore (e : List Char × Option (List Char)) : List Char :=
  strLit e.1 ++ ':' :: ' ' :: jvText e.2

/-- The remaining entries of a non-empty object, each preceded by `,` and
`sepLead`, finished by `after` and the closing brace. -/
def entriesTail (sepLead after : List Char) :
    List (List Char × Option (List Char)) → List Char
  | [] => after ++ ['\x7d']
  | e :: es => ',' :: (sepLead ++ entryTextCore e ++ entriesTail sepLead after es)

/-- A flat JSON object as printed by Python's `json.dumps`. -/
def flatObjText (openLead sepLead after : List Char) :
    List (List Char × Option (List Char)) → List Char
  | [] => ['\x7b', '\x7d']
  | e :: es => '\x7b' :: (openLead ++ entryTextCore e ++ entriesTail sepLead after es)

/-- Read the body of a JSON string literal up to the closing quote
(escape-free fragment; see `niceStr`). -/
def takeStr : List Char → Option (List Char × List Char)
  | [] => none
  | c :: cs =>
    if c = '"' then some ([], cs)
    else (takeStr cs).map (fun p => (c :: p.1, p.2))

/-- Parse a JSON string literal. -/
def parseStrLit : List Char → Option (List Char × List Char)
  | '"' :: cs => takeStr cs
  | _ => none

/-- Parse a JSON value in a flat object: a string or `null`. -/
def parseVal : List Char → Option (Option (List Char) × List Char)
  | '"' :: cs => (takeStr cs).map (fun p => (some p.1, p.2))
  | 'n' :: 'u' :: 'l' :: 'l' :: cs => some (none, cs)
  | _ => none

/-- Parse the entries of a non-empty flat object, starting at the first key,
consuming the closing brace.  Fuel bounds the number of entries. -/
def parseLoop : Nat → List Char → Option (List (List Char × Option (List Char)) × List Char)
  | 0, _ => none
  | fuel + 1, s =>
    match parseStrLit (skipWs s) with
    | none => none
    | some (k, s1) =>
      match skipWs s1 with
      | ':' :: s2 =>
        match parseVal (skipWs s2) with
        | none => none
        | some (v, s3) =>
          match skipWs s3 with
          | ',' :: s4 =>
            match parseLoop fuel s4 with
            | none => none
            | some (es, r) => some ((k, v) :: es, r)
          | '\x7d' :: s4 => some ([(k, v)], s4)
          | _ => none
      | _ => none

/-- Parse a whole flat JSON object, requiring only whitespace to follow
(the embedding of `json.loads` on the flat-object shape). -/
def parseFlatObj (s : List Char) : Option (List (List Char × Option (List Char))) :=
  match skipWs s with
  | '\x7b' :: r =>
    match skipWs r with
    | '\x7d' :: r2 => if wsOnly r2 then some [] else none
    | r2 =>
      match parseLoop (s.length + 1) r2 with
      | some (es, rest) => if wsOnly rest then some es else none
      | none => none
  | _ => none

/-- View parsed flat-object entries as a string-to-string mapping, failing
on a `null` value (the program uses `users.json` values as strings). -/
def entriesToMap : List (List Char × Option (List Char)) → Option (List (List Char × List Char))
  | [] => some []
  | (k, some v) :: t => (entriesToMap t).map (fun m => (k, v) :: m)
  | (_, none) :: _ => none

/-! ## `UsersConfig` (src/config.py lines 21–42)

`users.json` holds a flat string-to-string JSON object.  Every mutation
rewrites the whole file with `json.dumps(config, indent=4, sort_keys=True)`
followed by a newline. -/

/-- The users mapping: client UUID to display username, in insertion order. -/
abbrev UsersMap := List (List Char × List Char)

/-- `UsersConfig.save` (lines 39–42): the full file contents written for a
given in-memory mapping — key-sorted, indent 4, plus a trailing newline. -/
def usersSave (m : UsersMap) : List Char :=
  flatObjText ('\n' :: spaces 4) ('\n' :: spaces 4) ['\n']
    ((sortEntries m).map (fun e => (e.1, some e.2))) ++ ['\n']

/-- `UsersConfig.__init__` (lines 22–24): `json.loads` of the file, viewed as
a string-to-string mapping. -/
def usersLoad (s : List Char) : Option UsersMap :=
  (parseFlatObj s).bind entriesToMap

/-- In-memory mapping together with the persisted file contents. -/
structure UsersState where
  map : UsersMap
  file : List Char

/-- `UsersConfig.__getitem__` (lines 31–32): `self.__config[uuid]`;
`none` models the `KeyError` Python raises for an absent key. -/
def UsersConfig.getItem (s : UsersState) (uuid : List Char) : Option (List Char) :=
  lookupKey uuid s.map

/-- `UsersConfig.__setitem__` (lines 34–37): assign, then `save()`. -/
def UsersConfig.setItem (s : UsersState) (uuid username : List Char) : UsersState :=
  let m := updEntry s.map uuid username
  ⟨m, usersSave m⟩

/-- `UsersConfig.__delitem__` (lines 26–29): `del`, then `save()`;
`none` models the `KeyError` for an absent key (no mutation happens). -/
def UsersConfig.delItem (s : UsersState) (uuid : List Char) : Option UsersState :=
  if (lookupKey uuid s.map).isSome then
    let m := removeEntry s.map uuid
    some ⟨m, usersSave m⟩
  else none

/-! ## Python list indexing

`clients[number - 1]` and `del clients[number - 1]` follow Python indexing:
a negative index `i` addresses position `len + i`; an index out of range
after that adjustment raises `IndexError`. -/

/-- Effective Python index: negative indices count from the end. -/
def pyIndex (len : Nat) (i : Int) : Int :=
  if i < 0 then (len : Int) + i else i

/-- Python `xs[i]` with `IndexError` as `none`. -/
def pyGet (xs : List α) (i : Int) : Option α :=
  let j := pyIndex xs.length i
  if j < 0 then none else xs.get? j.toNat

/-- Python `del xs[i]` with `IndexError` as `none`. -/
def pyDel (xs : List α) (i : Int) : Option (List α) :=
  let j := pyIndex xs.length i
  if j < 0 then none
  else if j.toNat < xs.length then some (xs.eraseIdx j.toNat) else none

/-! ## `XrayConfig` (src/config.py lines 45–107) -/

/-- The fields of `xray/config.json` the program consumes:
`inbounds[0].settings.clients` (each client modelled by its `id` string),
`inbounds[0].streamSettings.network`, and the per-transport path objects
`wsSettings`/`xhttpSettings` (each modelled by its `path` string). -/
structure XrayState where
  clients : List (List Char)
  network : List Char
  wsPath : Option (List Char)
  xhttpPath : Option (List Char)
deriving DecidableEq

/-- `XrayConfig.count` (lines 62–63). -/
def XrayConfig.count (st : XrayState) : Nat := st.clients.length

/-- `XrayConfig.add` (lines 53–60): the fresh UUID (`str(uuid4())` in the
source) is passed in as a parameter; the client is appended and the UUID
returned. -/
def XrayConfig.add (st : XrayState) (uuid : List Char) : List Char × XrayState :=
  (uuid, { st with clients := st.clients ++ [uuid] })

/-- `XrayConfig.get` (lines 65–72): `self.__clients[number - 1]['id']`,
printing an error and returning `None` on `IndexError`. -/
def XrayConfig.get (st : XrayState) (number : Int) : Option (List Char) :=
  pyGet st.clients (number - 1)

/-- `XrayConfig.remove` (lines 90–102): read `clients[number - 1]['id']`,
delete `clients[number - 1]`, save, and return the UUID; on `IndexError`
print an error and return `None` without mutating.  (When the read
succeeds, the deletion of the same index of the same list succeeds too.) -/
def XrayConfig.remove (st : XrayState) (number : Int) : Option (List Char) × XrayState :=
  match pyGet st.clients (number - 1), pyDel st.clients (number - 1) with
  | some uuid, some cl => (some uuid, { st with clients := cl })
  | _, _ => (none, st)

/-- `XrayConfig.path` (lines 83–88): a two-way match on the network tag;
`none` models both the fall-through `None` for an unrecognised network and
a missing settings key. -/
def XrayConfig.path (st : XrayState) : Option (List Char) :=
  if st.network = "ws".toList then st.wsPath
  else if st.network = "xhttp".toList then st.xhttpPath
  else none

/-- The rows printed by `XrayConfig.list` (lines 74–81): sequence numbers
are positions in order; each row pairs the username looked up in
`users.json` with the UUID.  `none` models the uncaught `KeyError` when a
client UUID is absent from the users mapping. -/
def listTableAux (users : UsersMap) : List (List Char) → Option (List (List Char × List Char))
  | [] => some []
  | u :: us =>
    match lookupKey u users with
    | none => none
    | some name => (listTableAux users us).map (fun t => (name, u) :: t)

/-- `XrayConfig.list` (lines 74–81). -/
def XrayConfig.list (st : XrayState) (users : UsersMap) :
    Option (List (List Char × List Char)) :=
  listTableAux users st.clients

/-! ## The `client` command (src/config.py lines 110–161) -/

inductive ClientAction where
  | add
  | list
  | remove
deriving DecidableEq

/-- Outcome of a `client` invocation.  `missingConfig`, `noClients`,
`invalidNumber` and `noSuchClient` are the printed-error early returns;
`keyError` is an uncaught `KeyError` (missing UUID in `users.json`). -/
inductive ClientOut where
  | ok
  | missingConfig
  | noClients
  | invalidNumber
  | noSuchClient
  | keyError
deriving DecidableEq

/-- `client(args)` (lines 110–161).  `caddyE`/`usersE`/`xrayE` are the
existence of the three config files; `newUuid` stands for the `uuid4()`
drawn in `add`; `username` for the interactive username; `numInput` for the
interactive sequence number, `none` meaning a non-integer string
(`int(...)` raises `ValueError`). -/
def clientCmd (caddyE usersE xrayE : Bool) (action : ClientAction)
    (users : UsersMap) (st : XrayState)
    (newUuid username : List Char) (numInput : Option Int) :
    ClientOut × UsersMap × XrayState :=
  if caddyE && usersE && xrayE then
    match action with
    | .add =>
      let (u, st') := XrayConfig.add st newUuid
      (.ok, updEntry users u username, st')
    | .list =>
      match XrayConfig.list st users with
      | some _ => (.ok, users, st)
      | none => (.keyError, users, st)
    | .remove =>
      if XrayConfig.count st = 0 then (.noClients, users, st)
      else
        match XrayConfig.list st users with
        | none => (.keyError, users, st)
        | some _ =>
          match numInput with
          | none => (.invalidNumber, users, st)
          | some n =>
            if n < 1 then (.invalidNumber, users, st)
            else
              match XrayConfig.remove st n with
              | (none, _) => (.noSuchClient, users, st)
              | (some u, st') =>
                if (lookupKey u users).isSome then (.ok, removeEntry users u, st')
                else (.keyError, users, st')
  else (.missingConfig, users, st)

/-! ## base64 (Python `base64.b64encode`/`b64decode`) -/

/-- The base64 alphabet. -/
def b64chars : List Char :=
  "ABCDEFGHIJKLMNOPQRSTUVWXYZabcdefghijklmnopqrstuvwxyz0123456789+/".toList

/-- Sixtet to base64 character. -/
def encChar (n : Nat) : Char := b64chars.getD n 'A'

/-- Base64 character back to its sixtet. -/
def decChar (c : Char) : Option Nat :=
  if c ∈ b64chars then some (b64chars.indexOf c) else none

/-- `base64.b64encode` on a byte list. -/
def b64encode : List Nat → List Char
  | a :: b :: c :: rest =>
    let w := a * 65536 + b * 256 + c
    encChar (w / 262144) :: encChar (w / 4096 % 64) :: encChar (w / 64 % 64) ::
      encChar (w % 64) :: b64encode rest
  | [a, b] =>
    let w := a * 65536 + b * 256
    [encChar (w / 262144), encChar (w / 4096 % 64), encChar (w / 64 % 64), '=']
  | [a] =>
    let w := a * 65536
    [encChar (w / 262144), encChar (w / 4096 % 64), '=', '=']
  | [] => []

/-- `base64.b64decode` on the well-padded fragment produced by
`b64encode`. -/
def b64decode : List Char → Option (List Nat)
  | c1 :: c2 :: c3 :: c4 :: rest =>
    if c3 = '=' ∧ c4 = '=' ∧ rest = [] then
      match decChar c1, decChar c2 with
      | some n1, some n2 =>
        let w := n1 * 262144 + n2 * 4096
        some [w / 65536]
      | _, _ => none
    else if c4 = '=' ∧ rest = [] then
      match decChar c1, decChar c2, decChar c3 with
      | some n1, some n2, some n3 =>
        let w := n1 * 262144 + n2 * 4096 + n3 * 64
        some [w / 65536, w / 256 % 256]
      | _, _, _ => none
    else
      match decChar c1, decChar c2, decChar c3, decChar c4 with
      | some n1, some n2, some n3, some n4 =>
        let w := n1 * 262144 + n2 * 4096 + n3 * 64 + n4
        (b64decode rest).map (fun ns => w / 65536 :: w / 256 % 256 :: w % 256 :: ns)
      | _, _, _, _ => none
  | [] => some []
  | _ => none

/-- `str.encode()` (UTF-8), restricted to ASCII data where each code point
is one byte. -/
def strToBytes (s : List Char) : List Nat := s.map Char.toNat

/-- `bytes.decode()` restricted to ASCII data. -/
def bytesToChars (bs : List Nat) : List Char := bs.map Char.ofNat

/-! ## The `connstr` command (src/config.py lines 164–222) -/

/-- The fixed parameter object built at lines 206–218, in the source's
(alphabetical) insertion order; the `path` value is `xray_config.path()`,
which may be Python `None` (JSON `null`). -/
def paramsEntries (domain uuid net : List Char) (spath : Option (List Char)) :
    List (List Char × Option (List Char)) :=
  [("add".toList, some domain), ("aid".toList, some "0".toList),
   ("host".toList, some domain), ("id".toList, some uuid),
   ("net".toList, some net), ("path".toList, spath),
   ("port".toList, some "443".toList), ("ps".toList, some domain),
   ("tls".toList, some "tls".toList), ("type".toList, some "none".toList),
   ("v".toList, some "2".toList)]

/-- `json.dumps(params)` (line 220) — default separators, no indent. -/
def paramsText (domain uuid net : List Char) (spath : Option (List Char)) : List Char :=
  flatObjText [] [' '] [] (paramsEntries domain uuid net spath)

/-- The printed connection string (line 222):
`vmess://` + base64 of the UTF-8 bytes of the JSON parameter object. -/
def connstrOutput (domain uuid net : List Char) (spath : Option (List Char)) : List Char :=
  "vmess://".toList ++ b64encode (strToBytes (paramsText domain uuid net spath))

/-- Outcome of a `connstr` invocation. -/
inductive ConnOut where
  | missingConfig
  | noClients
  | invalidNumber
  | noSuchClient
  | printed (s : List Char)
deriving DecidableEq

/-- `connstr(args)` (lines 164–222).  `domain` is the name extracted from
the Caddyfile by the regex; `uuidArg` is `--uuid`; `numInput` the
interactive sequence number (`none` for a non-integer string). -/
def connstrCmd (caddyE xrayE : Bool) (domain : List Char) (st : XrayState)
    (uuidArg : Option (List Char)) (numInput : Option Int) : ConnOut :=
  if caddyE && xrayE then
    if XrayConfig.count st = 0 then .noClients
    else
      match uuidArg with
      | some u => .printed (connstrOutput domain u st.network (XrayConfig.path st))
      | none =>
        match numInput with
        | none => .invalidNumber
        | some n =>
          if n < 1 then .invalidNumber
          else
            match XrayConfig.get st n with
            | none => .noSuchClient
            | some u => .printed (connstrOutput domain u st.network (XrayConfig.path st))
  else .missingConfig

/-! ## Persisting `xray/config.json` (`XrayConfig.save`, lines 104–107)

`json.dumps(self.__config, indent=4, sort_keys=True)` on the modelled
document.  All keys below are written in their sorted order (`"settings"`
before `"streamSettings"`, `"network"` before `"wsSettings"` before
`"xhttpSettings"`), which is what `sort_keys=True` produces. -/

/-- Newline followed by the indentation of nesting level `k`. -/
def nlsp (k : Nat) : List Char := '\n' :: spaces (4 * k)

/-- One client object `\x7b"id": u\x7d` printed at nesting level `lvl`. -/
def clientObjText (lvl : Nat) (u : List Char) : List Char :=
  flatObjText (nlsp (lvl + 1)) (nlsp (lvl + 1)) (nlsp lvl) [("id".toList, some u)]

/-- The remaining elements of a non-empty clients array (the array's value
sits at nesting level `lvl`, its elements at `lvl + 1`). -/
def clientsTailText (lvl : Nat) : List (List Char) → List Char
  | [] => nlsp lvl ++ [']']
  | u :: us => ',' :: (nlsp (lvl + 1) ++ clientObjText (lvl + 1) u ++ clientsTailText lvl us)

/-- The clients array as printed by `json.dumps(..., indent=4)`. -/
def clientsArrText (lvl : Nat) : List (List Char) → List Char
  | [] => ['[', ']']
  | u :: us => '[' :: (nlsp (lvl + 1) ++ clientObjText (lvl + 1) u ++ clientsTailText lvl us)

/-- A transport-settings object `\x7b"path": p\x7d` at nesting level `lvl`. -/
def pathObjText (lvl : Nat) (p : List Char) : List Char :=
  flatObjText (nlsp (lvl + 1)) (nlsp (lvl + 1)) (nlsp lvl) [("path".toList, some p)]

/-- Document scaffold up to the clients array:
`\x7b "inbounds": [ \x7b "settings": \x7b "clients": ` with its indent. -/
def xg1 : List Char :=
  ("\x7b\n    \"inbounds\": [\n        \x7b\n            \"settings\": \x7b\n"
      ++ "                \"clients\": ").toList

/-- Document scaffold between the clients array and the network value:
closing of `settings`, opening of `streamSettings` with `"network": `. -/
def xg2 : List Char :=
  ("\n            \x7d,\n            \"streamSettings\": \x7b\n"
      ++ "                \"network\": ").toList

/-- Document scaffold closing `streamSettings`, the inbound object, the
`inbounds` array and the root object. -/
def xg3 : List Char := "\n            \x7d\n        \x7d\n    ]\n\x7d".toList

/-- Separator introducing the `wsSettings` entry. -/
def xgWs : List Char := ",\n                \"wsSettings\": ".toList

/-- Separator introducing the `xhttpSettings` entry. -/
def xgX : List Char := ",\n                \"xhttpSettings\": ".toList

/-- The transport-settings entries following `"network"` inside
`streamSettings`, in sorted key order. -/
def settingsExtra (st : XrayState) : List Char :=
  match st.wsPath, st.xhttpPath with
  | some p, none => xgWs ++ pathObjText 4 p
  | none, some p => xgX ++ pathObjText 4 p
  | none, none => []
  | some p, some q => xgWs ++ pathObjText 4 p ++ xgX ++ pathObjText 4 q

/-- The whole persisted document (restricted to the consumed fields). -/
def xrayDocText (st : XrayState) : List Char :=
  xg1 ++ clientsArrText 4 st.clients ++ xg2 ++ strLit st.network
    ++ settingsExtra st ++ xg3

/-- `XrayConfig.save` (lines 104–107): the dumped document plus the trailing
newline the source writes. -/
def xraySave (st : XrayState) : List Char := xrayDocText st ++ ['\n']

/-! ## Loading `xray/config.json` (`XrayConfig.__init__`, lines 46–51)

A whitespace-skipping parser for the persisted shape above; it mirrors
`json.loads` followed by the constructor's field extraction
(`inbounds[0].settings.clients`, `inbounds[0].streamSettings`).  A parse
failure also stands for the `KeyError`/`IndexError` the extraction would
raise on a document of a different shape.  At most one transport-settings
object after `"network"` is supported, which covers every document the
`generate` templates and `save` produce for a single configured
transport. -/

/-- Expect an exact character sequence. -/
def expectList : List Char → List Char → Option (List Char)
  | [], s => some s
  | _ :: _, [] => none
  | p :: ps, c :: cs => if c = p then expectList ps cs else none

/-- Expect an exact token after optional whitespace. -/
def expectTok (pat : List Char) (s : List Char) : Option (List Char) :=
  expectList pat (skipWs s)

/-- Parse a one-entry flat object, returning the entry and the rest. -/
def parseObj1 (s : List Char) : Option ((List Char × Option (List Char)) × List Char) :=
  match expectTok ['\x7b'] s with
  | none => none
  | some s1 =>
    match parseLoop (s1.length + 1) s1 with
    | some ([e], r) => some (e, r)
    | _ => none

/-- Parse one client object, extracting its `id` string. -/
def parseIdObj (s : List Char) : Option (List Char × List Char) :=
  match parseObj1 s with
  | some ((k, some u), r) => if k = "id".toList then some (u, r) else none
  | _ => none

/-- Parse the elements of a non-empty clients array, consuming the closing
bracket. -/
def parseClientsLoop : Nat → List Char → Option (List (List Char) × List Char)
  | 0, _ => none
  | fuel + 1, s =>
    match parseIdObj s with
    | none => none
    | some (u, s1) =>
      match skipWs s1 with
      | ',' :: s2 =>
        match parseClientsLoop fuel s2 with
        | none => none
        | some (us, r) => some (u :: us, r)
      | ']' :: s2 => some ([u], s2)
      | _ => none

/-- Parse a clients array. -/
def parseClientsArr (s : List Char) : Option (List (List Char) × List Char) :=
  match skipWs s with
  | '[' :: r =>
    match skipWs r with
    | ']' :: r2 => some ([], r2)
    | r2 => parseClientsLoop (s.length + 1) r2
  | _ => none

/-- The scaffold up to the value position of `"clients"`:
`\x7b "inbounds" : [ \x7b "settings" : \x7b "clients" :`. -/
def xrayProlog (s : List Char) : Option (List Char) :=
  (expectTok ['\x7b'] s).bind fun s1 =>
  (expectTok (strLit "inbounds".toList) s1).bind fun s2 =>
  (expectTok [':'] s2).bind fun s3 =>
  (expectTok ['['] s3).bind fun s4 =>
  (expectTok ['\x7b'] s4).bind fun s5 =>
  (expectTok (strLit "settings".toList) s5).bind fun s6 =>
  (expectTok [':'] s6).bind fun s7 =>
  (expectTok ['\x7b'] s7).bind fun s8 =>
  (expectTok (strLit "clients".toList) s8).bind fun s9 =>
  expectTok [':'] s9

/-- After the clients array: `\x7d , "streamSettings" : \x7b "network" :`. -/
def xrayMid (s : List Char) : Option (List Char) :=
  (expectTok ['\x7d'] s).bind fun s1 =>
  (expectTok [','] s1).bind fun s2 =>
  (expectTok (strLit "streamSettings".toList) s2).bind fun s3 =>
  (expectTok [':'] s3).bind fun s4 =>
  (expectTok ['\x7b'] s4).bind fun s5 =>
  (expectTok (strLit "network".toList) s5).bind fun s6 =>
  expectTok [':'] s6

/-- The four closing brackets `\x7d \x7d ] \x7d` (stream settings, inbound
object, inbounds array, root object). -/
def xrayClosers (s : List Char) : Option (List Char) :=
  (expectTok ['\x7d'] s).bind fun s1 =>
  (expectTok ['\x7d'] s1).bind fun s2 =>
  (expectTok [']'] s2).bind fun s3 =>
  expectTok ['\x7d'] s3

/-- Build the state from the parsed transport-settings key. -/
def xrayMkState (us : List (List Char)) (net key pa : List Char) : Option XrayState :=
  if key = "wsSettings".toList then some ⟨us, net, some pa, none⟩
  else if key = "xhttpSettings".toList then some ⟨us, net, none, some pa⟩
  else none

/-- One transport-settings entry `, "<key>" : \x7b "path" : pa \x7d`
followed by the closers. -/
def xrayExtraPart (us : List (List Char)) (net t1 : List Char) : Option XrayState :=
  (parseStrLit (skipWs t1)).bind fun kt =>
  (expectTok [':'] kt.2).bind fun t3 =>
  (parseObj1 t3).bind fun et =>
  match et.1.2 with
  | some pa =>
    if et.1.1 = "path".toList then
      (xrayClosers et.2).bind fun t8 =>
      if wsOnly t8 then xrayMkState us net kt.1 pa else none
    else none
  | none => none

/-- After the `"network"` value: either a transport-settings entry or the
closers directly. -/
def xraySettingsTail (us : List (List Char)) (net s : List Char) : Option XrayState :=
  match skipWs s with
  | ',' :: t1 => xrayExtraPart us net t1
  | t =>
    (xrayClosers t).bind fun t8 =>
    if wsOnly t8 then some ⟨us, net, none, none⟩ else none

/-- Parse the persisted Xray document back into an `XrayState`. -/
def parseXray (s : List Char) : Option XrayState :=
  (xrayProlog s).bind fun s10 =>
  (parseClientsArr s10).bind fun ut =>
  (xrayMid ut.2).bind fun s18 =>
  (parseStrLit (skipWs s18)).bind fun nt =>
  xraySettingsTail ut.1 nt.1 nt.2

/-- `XrayConfig.__init__` on file contents. -/
def xrayLoad (s : List Char) : Option XrayState := parseXray s

/-- States on which the JSON embedding agrees with Python's `json` module:
printable-ASCII escape-free strings, and the settings object of a single
configured transport (which is what `generate` produces and `save`
maintains). -/
def niceXraySettings : Option (List Char) → Option (List Char) → Prop
  | some p, none => niceStr p
  | none, some p => niceStr p
  | none, none => True
  | some _, some _ => False

instance : (a b : Option (List Char)) → Decidable (niceXraySettings a b)
  | some p, none => inferInstanceAs (Decidable (niceStr p))
  | none, some p => inferInstanceAs (Decidable (niceStr p))
  | none, none => inferInstanceAs (Decidable True)
  | some _, some _ => inferInstanceAs (Decidable False)

/-- See `niceXraySettings`: the well-formedness condition for `XrayState`. -/
def niceXray (st : XrayState) : Prop :=
  (∀ u ∈ st.clients, niceStr u) ∧ niceStr st.network ∧
    niceXraySettings st.wsPath st.xhttpPath

instance (st : XrayState) : Decidable (niceXray st) :=
  inferInstanceAs (Decidable (_ ∧ _ ∧ _))

/-! ## The `generate` command (src/config.py lines 225–250)

`str.format` is embedded on pre-tokenised templates: a template is a list
of literal runs and replacement fields (this is exactly how Python's
formatter scans a format string, with `\x7b\x7b`/`\x7d\x7d` escapes already
folded into the literal runs).  A replacement field whose name is missing
from the substitutions models the `KeyError` `format` would raise.
Substituted values are copied verbatim — `format` performs a single pass
and never re-scans values. -/

/-- A piece of a format-string template. -/
inductive Tok where
  | lit : List Char → Tok
  | field : List Char → Tok

/-- Render one token under the given keyword substitutions. -/
def fmtToken (subs : List (List Char × List Char)) : Tok → Option (List Char)
  | .lit s => some s
  | .field k => lookupKey k subs

/-- `template.format(**subs)`. -/
def pyFormat (ts : List Tok) (subs : List (List Char × List Char)) : Option (List Char) :=
  match ts with
  | [] => some []
  | t :: rest =>
    match fmtToken subs t, pyFormat rest subs with
    | some s, some r => some (s ++ r)
    | _, _ => none

/-- The two accepted transports (`choices=('ws', 'xhttp')`, line 274). -/
inductive Transport where
  | ws
  | xhttp
deriving DecidableEq

/-- Literal run of the modelled Caddyfile templates between the domain and
the path placeholder (first line ends `... \x7b`, per the spec). -/
def caddyLit1 : List Char := " \x7b\n    reverse_proxy ".toList

/-- Closing literal run of the modelled `ws` Caddyfile template. -/
def caddyLit2ws : List Char := " localhost:8001\n\x7d\n".toList

/-- Closing literal run of the modelled `xhttp` Caddyfile template. -/
def caddyLit2x : List Char := "/* localhost:8001\n\x7d\n".toList

/-- Modelled from the spec: the repository's template files under
`templates/(ws|xhttp)/Caddyfile` are not in the sources; per the spec they
are Caddy configs whose first line is `<domain> \x7b` with `\x7bdomain\x7d`
and `\x7bpath\x7d` placeholders. -/
def caddyTemplate : Transport → List Tok
  | .ws => [.field "domain".toList, .lit caddyLit1, .field "path".toList, .lit caddyLit2ws]
  | .xhttp => [.field "domain".toList, .lit caddyLit1, .field "path".toList, .lit caddyLit2x]

/-- Opening literal run of the modelled `ws` Xray skeleton, up to the path
placeholder. -/
def xrayLit1ws : List Char :=
  ("\x7b\n    \"inbounds\": [\n        \x7b\n            \"settings\": \x7b\n"
    ++ "                \"clients\": []\n            \x7d,\n"
    ++ "            \"streamSettings\": \x7b\n                \"network\": \"ws\",\n"
    ++ "                \"wsSettings\": \x7b\n                    \"path\": \"").toList

/-- Opening literal run of the modelled `xhttp` Xray skeleton, up to the
path placeholder. -/
def xrayLit1x : List Char :=
  ("\x7b\n    \"inbounds\": [\n        \x7b\n            \"settings\": \x7b\n"
    ++ "                \"clients\": []\n            \x7d,\n"
    ++ "            \"streamSettings\": \x7b\n                \"network\": \"xhttp\",\n"
    ++ "                \"xhttpSettings\": \x7b\n                    \"path\": \"").toList

/-- Closing literal run of the modelled Xray skeletons. -/
def xrayLit2 : List Char :=
  ("\"\n                \x7d\n            \x7d\n        \x7d\n    ]\n\x7d\n").toList

/-- Modelled from the spec: the repository's template files under
`templates/(ws|xhttp)/config.json` are not in the sources; per the spec
they are Xray JSON skeletons (matching the shape `XrayConfig` consumes,
with an empty clients list) whose only placeholder is `\x7bpath\x7d`, as
the source formats them with `path` alone. -/
def xrayTemplate : Transport → List Tok
  | .ws => [.lit xrayLit1ws, .field "path".toList, .lit xrayLit2]
  | .xhttp => [.lit xrayLit1x, .field "path".toList, .lit xrayLit2]

/-- `generate(args)` (lines 225–250), restricted to the two written config
texts the claim is about.  `tokPath` stands for `secrets.token_urlsafe()`
(an URL-safe base64 token, hence brace-free); the random path is
`'/' + tokPath` (line 226).  The Caddyfile is formatted with `domain` and
`path` (line 235), the Xray skeleton with `path` alone (line 250). -/
def generateFiles (t : Transport) (domain tokPath : List Char) :
    Option (List Char × List Char) :=
  match pyFormat (caddyTemplate t) [("domain".toList, domain), ("path".toList, '/' :: tokPath)],
      pyFormat (xrayTemplate t) [("path".toList, '/' :: tokPath)] with
  | some c, some x => some (c, x)
  | _, _ => none

/-- Does the two-character sequence `a b` occur in `l`? -/
def hasPair (a b : Char) : List Char → Bool
  | x :: y :: rest => (x = a && y = b) || hasPair a b (y :: rest)
  | _ => false

/-! ## The `generate` argument parser (src/config.py lines 269–276) -/

/-- `choices=('ws', 'xhttp')` (line 274): any other value is rejected by
argparse. -/
def parseTransport (s : List Char) : Option Transport :=
  if s = "ws".toList then some .ws
  else if s = "xhttp".toList then some .xhttp
  else none

/-- The `generate` subparser (lines 269–276): `--domain` defaults to
`localhost`, `--transport` defaults to `xhttp` and admits only the two
choices. -/
def generateParseArgs (domainArg transportArg : Option (List Char)) :
    Option (List Char × Transport) :=
  match transportArg with
  | none => some (domainArg.getD "localhost".toList, .xhttp)
  | some t => (parseTransport t).map (fun tr => (domainArg.getD "localhost".toList, tr))

/-! ## Theorems -/

theorem skipWs_append {w : List Char} (hw : wsOnly w = true) (s : List Char) :
    skipWs (w ++ s) = skipWs s := by
  induction w with
  | nil => rfl
  | cons c cs ih =>
    simp only [wsOnly, List.all_cons, Bool.and_eq_true] at hw
    simp [skipWs, hw.1, ih hw.2]

theorem skipWs_cons {c : Char} (hc : isWsChar c = false) (s : List Char) :
    skipWs (c :: s) = c :: s := by
  simp [skipWs, hc]

@[simp] theorem skipWs_space (s : List Char) : skipWs (' ' :: s) = skipWs s := rfl

@[simp] theorem skipWs_lf (s : List Char) : skipWs ('\n' :: s) = skipWs s := rfl

@[simp] theorem skipWs_quote (s : List Char) : skipWs ('"' :: s) = '"' :: s := rfl

@[simp] theorem skipWs_colon (s : List Char) : skipWs (':' :: s) = ':' :: s := rfl

@[simp] theorem skipWs_comma (s : List Char) : skipWs (',' :: s) = ',' :: s := rfl

@[simp] theorem skipWs_rbrace (s : List Char) : skipWs ('\x7d' :: s) = '\x7d' :: s := rfl

@[simp] theorem skipWs_lbrace (s : List Char) : skipWs ('\x7b' :: s) = '\x7b' :: s := rfl

@[simp] theorem skipWs_lbrack (s : List Char) : skipWs ('[' :: s) = '[' :: s := rfl

@[simp] theorem skipWs_rbrack (s : List Char) : skipWs (']' :: s) = ']' :: s := rfl

@[simp] theorem skipWs_n (s : List Char) : skipWs ('n' :: s) = 'n' :: s := rfl

@[simp] theorem wsOnly_spaces (n : Nat) : wsOnly (spaces n) = true := by
  induction n with
  | zero => rfl
  | succ k ih =>
    simp only [spaces, List.replicate_succ, wsOnly, List.all_cons, Bool.and_eq_true]
    exact ⟨rfl, by simpa [wsOnly, spaces] using ih⟩

@[simp] theorem wsOnly_nlsp (k : Nat) : wsOnly (nlsp k) = true := by
  simp only [nlsp, wsOnly, List.all_cons, Bool.and_eq_true]
  exact ⟨rfl, by simpa [wsOnly] using wsOnly_spaces (4 * k)⟩

theorem niceStr_no_quote {s : List Char} (h : niceStr s) : '"' ∉ s := by
  intro hmem
  exact ((h _ hmem).2.2.1) rfl

theorem takeStr_append {k : List Char} (hk : '"' ∉ k) (rest : List Char) :
    takeStr (k ++ '"' :: rest) = some (k, rest) := by
  induction k with
  | nil => simp [takeStr]
  | cons c cs ih =>
    have hc : ¬ (c = '"') := fun h => hk (by simp [h])
    have hcs : '"' ∉ cs := fun h => hk (by simp [h])
    simp [takeStr, hc, ih hcs]

theorem parseStrLit_append {k : List Char} (hk : '"' ∉ k) (rest : List Char) :
    parseStrLit (strLit k ++ rest) = some (k, rest) := by
  have : strLit k ++ rest = '"' :: (k ++ '"' :: rest) := by simp [strLit]
  rw [this]
  simp [parseStrLit, takeStr_append hk]

theorem jvText_head (v : Option (List Char)) (rest : List Char) :
    skipWs (jvText v ++ rest) = jvText v ++ rest := by
  cases v <;> simp [jvText, strLit]

theorem parseVal_append {v : Option (List Char)} (hv : niceVal v) (rest : List Char) :
    parseVal (jvText v ++ rest) = some (v, rest) := by
  cases v with
  | some s =>
    have : jvText (some s) ++ rest = '"' :: (s ++ '"' :: rest) := by simp [jvText, strLit]
    rw [this]
    simp [parseVal, takeStr_append (niceStr_no_quote hv)]
  | none => simp [jvText, parseVal]

theorem parseLoop_ws {w : List Char} (hw : wsOnly w = true) (fuel : Nat) (s : List Char) :
    parseLoop fuel (w ++ s) = parseLoop fuel s := by
  cases fuel with
  | zero => rfl
  | succ f => simp only [parseLoop, skipWs_append hw]

theorem parseLoop_spec {sl af : List Char} (hsl : wsOnly sl = true) (haf : wsOnly af = true) :
    ∀ (es : List (List Char × Option (List Char))) (e : List Char × Option (List Char))
      (fuel : Nat) (rest : List Char),
      es.length < fuel → niceEntry e → (∀ x ∈ es, niceEntry x) →
      parseLoop fuel (entryTextCore e ++ entriesTail sl af es ++ rest) = some (e :: es, rest) := by
  intro es
  induction es with
  | nil =>
    intro e fuel rest hfuel he _
    match fuel, hfuel with
    | f + 1, _ =>
      have hshape : entryTextCore e ++ entriesTail sl af [] ++ rest
          = '"' :: (e.1 ++ '"' :: (':' :: ' ' :: (jvText e.2 ++ (af ++ '\x7d' :: rest)))) := by
        simp [entryTextCore, entriesTail, strLit]
      rw [hshape]
      simp only [parseLoop, skipWs_quote]
      rw [show parseStrLit ('"' :: (e.1 ++ '"' :: (':' :: ' ' :: (jvText e.2 ++ (af ++ '\x7d' :: rest)))))
            = some (e.1, ':' :: ' ' :: (jvText e.2 ++ (af ++ '\x7d' :: rest))) from by
          simp [parseStrLit, takeStr_append (niceStr_no_quote he.1)]]
      simp only [skipWs_colon, skipWs_space, jvText_head]
      rw [parseVal_append he.2]
      simp only [skipWs_append haf, skipWs_rbrace]
  | cons x xs ih =>
    intro e fuel rest hfuel he hxs
    match fuel, hfuel with
    | f + 1, hfuel =>
      have hshape : entryTextCore e ++ entriesTail sl af (x :: xs) ++ rest
          = '"' :: (e.1 ++ '"' :: (':' :: ' ' :: (jvText e.2
              ++ (',' :: (sl ++ (entryTextCore x ++ entriesTail sl af xs ++ rest)))))) := by
        simp [entryTextCore, entriesTail, strLit]
      rw [hshape]
      simp only [parseLoop, skipWs_quote]
      rw [show parseStrLit ('"' :: (e.1 ++ '"' :: (':' :: ' ' :: (jvText e.2
              ++ (',' :: (sl ++ (entryTextCore x ++ entriesTail sl af xs ++ rest)))))))
            = some (e.1, ':' :: ' ' :: (jvText e.2
              ++ (',' :: (sl ++ (entryTextCore x ++ entriesTail sl af xs ++ rest))))) from by
          simp [parseStrLit, takeStr_append (niceStr_no_quote he.1)]]
      simp only [skipWs_colon, skipWs_space, jvText_head]
      rw [parseVal_append he.2]
      simp only [skipWs_comma]
      rw [parseLoop_ws hsl]
      rw [ih x f rest (by simpa using hfuel) (hxs x (by simp))
        (fun y hy => hxs y (by simp [hy]))]

theorem entriesTail_len (sl af : List Char) (es : List (List Char × Option (List Char))) :
    es.length ≤ (entriesTail sl af es).length := by
  induction es with
  | nil => simp [entriesTail]
  | cons x xs ih => simp [entriesTail]; omega

theorem parseFlatObj_append {openLead sl af tr : List Char}
    (hol : wsOnly openLead = true) (hsl : wsOnly sl = true) (haf : wsOnly af = true)
    (htr : wsOnly tr = true)
    (es : List (List Char × Option (List Char))) (hes : ∀ x ∈ es, niceEntry x) :
    parseFlatObj (flatObjText openLead sl af es ++ tr) = some es := by
  cases es with
  | nil =>
    simp only [flatObjText]
    show parseFlatObj ('\x7b' :: '\x7d' :: tr) = some []
    simp [parseFlatObj, htr]
  | cons e es' =>
    have hshape : flatObjText openLead sl af (e :: es') ++ tr
        = '\x7b' :: (openLead ++ (entryTextCore e ++ entriesTail sl af es' ++ tr)) := by
      simp [flatObjText]
    rw [hshape]
    have hcore : entryTextCore e ++ entriesTail sl af es' ++ tr
        = '"' :: (e.1 ++ '"' :: (':' :: ' ' :: (jvText e.2 ++ (entriesTail sl af es' ++ tr)))) := by
      simp [entryTextCore, strLit]
    have hW2 : skipWs (entryTextCore e ++ entriesTail sl af es' ++ tr)
        = '"' :: (e.1 ++ '"' :: (':' :: ' ' :: (jvText e.2 ++ (entriesTail sl af es' ++ tr)))) := by
      rw [hcore]; exact skipWs_quote _
    have hloop := parseLoop_spec hsl haf es' e
      (('\x7b' :: (openLead ++ (entryTextCore e ++ entriesTail sl af es' ++ tr))).length + 1) tr
      (by
        have h1 := entriesTail_len sl af es'
        simp only [List.length_cons, List.length_append]
        omega)
      (hes e (by simp)) (fun y hy => hes y (by simp [hy]))
    simp only [parseFlatObj]
    split
    next r hr =>
      obtain rfl : openLead ++ (entryTextCore e ++ entriesTail sl af es' ++ tr) = r := by
        rw [skipWs_lbrace] at hr
        exact (List.cons.injEq _ _ _ _ ▸ hr).2
      rw [skipWs_append hol, hW2]
      split
      next r2 h2 => exact absurd (List.cons.injEq _ _ _ _ ▸ h2).1 (by decide)
      next h2 =>
        rw [← hcore, hloop]
        simp [htr]
    next x h =>
      exact absurd (skipWs_lbrace _) (fun hc => h _ hc)

theorem pyGet_big {xs : List α} {n : Int} (h : (xs.length : Int) < n) :
    pyGet xs (n - 1) = none := by
  have h1 : pyIndex xs.length (n - 1) = n - 1 := by
    unfold pyIndex
    have h2 : ¬ (n - 1 < 0) := by omega
    simp [h2]
  unfold pyGet
  rw [h1]
  have h2 : ¬ (n - 1 < 0) := by omega
  simp only [h2, if_false]
  exact List.get?_eq_none.mpr (by omega)

theorem pyGet_nil (n : Int) : pyGet ([] : List α) n = none := by
  unfold pyGet pyIndex
  by_cases h : n < 0 <;> simp [h]

/-- Claim C1 (counterexample): with clients `["a", "b"]`, the out-of-range
sequence number 0 does not produce the error: Python's negative indexing
makes `get(0)` return the last client's UUID and `remove(0)` delete the
last client and return its UUID, mutating the list. -/
theorem c1_counterexample :
    ¬ (XrayConfig.get ⟨["a".toList, "b".toList], "ws".toList, some "/p".toList, none⟩ 0 = none
        ∧ XrayConfig.remove ⟨["a".toList, "b".toList], "ws".toList, some "/p".toList, none⟩ 0
          = (none, ⟨["a".toList, "b".toList], "ws".toList, some "/p".toList, none⟩)) := by
  decide

/-- Claim C1 (amended): for every client list and every sequence number `n`
strictly greater than the client count — in particular `n = count + 1` —
and for every `n` whatever when the client list is empty — in particular
`n = 0` there — `get(n)` and `remove(n)` report the error (return no UUID)
and leave the client list unchanged, so nothing is saved.  (For `n = 0` on
a non-empty list, Python's negative indexing instead addresses the last
client.) -/
theorem c1_amended (st : XrayState) (n : Int)
    (h : (st.clients.length : Int) < n ∨ st.clients = []) :
    XrayConfig.get st n = none ∧ XrayConfig.remove st n = (none, st) := by
  have hget : XrayConfig.get st n = none := by
    rcases h with h | h
    · exact pyGet_big h
    · unfold XrayConfig.get
      rw [h]
      exact pyGet_nil _
  refine ⟨hget, ?_⟩
  unfold XrayConfig.remove
  unfold XrayConfig.get at hget
  rw [hget]

/-- Witness for `c1_amended` at clients `["a"]`, `n = 2 = count + 1`. -/
theorem c1_witness :
    ((((⟨["a".toList], "ws".toList, some "/p".toList, none⟩ : XrayState).clients.length : Int) < 2
        ∨ (⟨["a".toList], "ws".toList, some "/p".toList, none⟩ : XrayState).clients = [])
      ∧ XrayConfig.get ⟨["a".toList], "ws".toList, some "/p".toList, none⟩ 2 = none
      ∧ XrayConfig.remove ⟨["a".toList], "ws".toList, some "/p".toList, none⟩ 2
          = (none, ⟨["a".toList], "ws".toList, some "/p".toList, none⟩)) :=
  ⟨Or.inl (by decide), c1_amended _ 2 (Or.inl (by decide))⟩

theorem eraseIdx_concat (l : List α) (a : α) : (l ++ [a]).eraseIdx l.length = l := by
  induction l with
  | nil => rfl
  | cons x xs ih => simp [List.eraseIdx, ih]

/-- Claim C3: `add()` returns the appended UUID; `remove(n)` with the new
client's sequence number (`count` after the add, i.e. prior count + 1)
returns that same UUID and restores the exact prior client list, hence the
prior count. -/
theorem c3_add_remove (st : XrayState) (uuid : List Char) :
    (XrayConfig.add st uuid).1 = uuid
    ∧ XrayConfig.count (XrayConfig.add st uuid).2 = XrayConfig.count st + 1
    ∧ XrayConfig.remove (XrayConfig.add st uuid).2 ((XrayConfig.count st : Int) + 1)
        = (some uuid, st)
    ∧ XrayConfig.count (XrayConfig.remove (XrayConfig.add st uuid).2
        ((XrayConfig.count st : Int) + 1)).2 = XrayConfig.count st := by
  have hlen : st.clients.length ≤ st.clients.length := le_refl _
  have hget : pyGet (st.clients ++ [uuid]) ((st.clients.length : Int) + 1 - 1)
      = some uuid := by
    unfold pyGet pyIndex
    have h1 : ¬ ((st.clients.length : Int) + 1 - 1 < 0) := by omega
    simp only [h1, if_false]
    have h2 : ((st.clients.length : Int) + 1 - 1).toNat = st.clients.length := by omega
    rw [h2, List.get?_eq_getElem?, List.getElem?_concat_length]
  have hdel : pyDel (st.clients ++ [uuid]) ((st.clients.length : Int) + 1 - 1)
      = some st.clients := by
    unfold pyDel pyIndex
    have h1 : ¬ ((st.clients.length : Int) + 1 - 1 < 0) := by omega
    simp only [h1, if_false]
    have h2 : ((st.clients.length : Int) + 1 - 1).toNat = st.clients.length := by omega
    rw [h2]
    simp [eraseIdx_concat]
  refine ⟨rfl, by simp [XrayConfig.add, XrayConfig.count], ?_, ?_⟩
  · unfold XrayConfig.remove XrayConfig.add XrayConfig.count
    simp only
    rw [hget, hdel]
  · unfold XrayConfig.remove XrayConfig.add XrayConfig.count
    simp only
    rw [hget, hdel]

theorem mem_insertEntry {e x : List Char × α} {l : List (List Char × α)} :
    x ∈ insertEntry e l ↔ x = e ∨ x ∈ l := by
  induction l with
  | nil => simp [insertEntry]
  | cons y ys ih =>
    by_cases h : keyLE e.1 y.1 <;> simp [insertEntry, h, ih] <;> tauto

theorem mem_sortEntries {x : List Char × α} {l : List (List Char × α)} :
    x ∈ sortEntries l ↔ x ∈ l := by
  induction l with
  | nil => simp [sortEntries]
  | cons y ys ih => simp [sortEntries, mem_insertEntry, ih]

theorem lookup_insertEntry {e : List Char × α} {l : List (List Char × α)}
    (h : e.1 ∉ l.map Prod.fst) (k : List Char) :
    lookupKey k (insertEntry e l) = lookupKey k (e :: l) := by
  induction l with
  | nil => rfl
  | cons y ys ih =>
    have hy : e.1 ≠ y.1 := fun hc =>
      h (by simp only [List.map_cons, List.mem_cons]; exact Or.inl hc)
    have h' : e.1 ∉ ys.map Prod.fst := fun hc =>
      h (by simp only [List.map_cons, List.mem_cons]; exact Or.inr hc)
    by_cases hk : keyLE e.1 y.1
    · simp [insertEntry, hk]
    · simp only [insertEntry, hk, if_false, lookupKey]
      by_cases hyk : y.1 = k
      · have hek : ¬ (e.1 = k) := fun hc => hy (hc.trans hyk.symm)
        simp [lookupKey, hyk, hek]
      · simp only [hyk, if_false]
        rw [ih h']
        simp [lookupKey, hyk]

theorem lookup_sortEntries {l : List (List Char × α)}
    (h : (l.map Prod.fst).Nodup) (k : List Char) :
    lookupKey k (sortEntries l) = lookupKey k l := by
  induction l with
  | nil => rfl
  | cons e es ih =>
    simp only [List.map_cons, List.nodup_cons] at h
    have h1 : e.1 ∉ (sortEntries es).map Prod.fst := by
      intro hm
      obtain ⟨x, hx, hfst⟩ := List.mem_map.mp hm
      exact h.1 (List.mem_map.mpr ⟨x, mem_sortEntries.mp hx, hfst⟩)
    show lookupKey k (insertEntry e (sortEntries es)) = lookupKey k (e :: es)
    rw [lookup_insertEntry h1 k]
    simp only [lookupKey]
    rw [ih h.2]

theorem entriesToMap_map (l : UsersMap) :
    entriesToMap (l.map (fun e => (e.1, some e.2))) = some l := by
  induction l with
  | nil => rfl
  | cons e es ih => simp [entriesToMap, ih]

theorem usersLoad_usersSave {m : UsersMap}
    (hm : ∀ e ∈ m, niceStr e.1 ∧ niceStr e.2) :
    usersLoad (usersSave m) = some (sortEntries m) := by
  unfold usersLoad usersSave
  rw [parseFlatObj_append (by decide) (by decide) (by decide) (by decide)]
  · exact entriesToMap_map (sortEntries m)
  · intro x hx
    obtain ⟨e, he, rfl⟩ := List.mem_map.mp hx
    have := hm e (mem_sortEntries.mp he)
    exact ⟨this.1, this.2⟩

theorem expectList_same : ∀ (pat s : List Char), expectList pat (pat ++ s) = some s := by
  intro pat
  induction pat with
  | nil => intro s; rfl
  | cons c cs ih => intro s; simp [expectList, ih]

theorem expectTok_ws {w : List Char} (hw : wsOnly w = true) (pat s : List Char) :
    expectTok pat (w ++ s) = expectTok pat s := by
  unfold expectTok
  rw [skipWs_append hw]

theorem parseObj1_ws {w : List Char} (hw : wsOnly w = true) (s : List Char) :
    parseObj1 (w ++ s) = parseObj1 s := by
  unfold parseObj1
  rw [expectTok_ws hw]

theorem parseIdObj_ws {w : List Char} (hw : wsOnly w = true) (s : List Char) :
    parseIdObj (w ++ s) = parseIdObj s := by
  unfold parseIdObj
  rw [parseObj1_ws hw]

theorem parseObj1_spec {ol sl af : List Char} (hol : wsOnly ol = true)
    (hsl : wsOnly sl = true) (haf : wsOnly af = true)
    {e : List Char × Option (List Char)} (he : niceEntry e) (rest : List Char) :
    parseObj1 (flatObjText ol sl af [e] ++ rest) = some (e, rest) := by
  have hshape : flatObjText ol sl af [e] ++ rest
      = '\x7b' :: (ol ++ (entryTextCore e ++ entriesTail sl af [] ++ rest)) := by
    simp [flatObjText]
  rw [hshape]
  unfold parseObj1
  rw [show expectTok ['\x7b']
        ('\x7b' :: (ol ++ (entryTextCore e ++ entriesTail sl af [] ++ rest)))
      = some (ol ++ (entryTextCore e ++ entriesTail sl af [] ++ rest)) from rfl]
  simp only []
  rw [parseLoop_ws hol]
  rw [parseLoop_spec hsl haf [] e
      ((ol ++ (entryTextCore e ++ entriesTail sl af [] ++ rest)).length + 1) rest
      (Nat.succ_pos _) he (by intro x hx; cases hx)]

theorem parseIdObj_spec {lvl : Nat} {u : List Char} (hu : niceStr u) (rest : List Char) :
    parseIdObj (clientObjText lvl u ++ rest) = some (u, rest) := by
  unfold parseIdObj clientObjText
  have hid : niceStr ("id".toList) := by decide
  have he : niceEntry ("id".toList, some u) := ⟨hid, hu⟩
  rw [parseObj1_spec (wsOnly_nlsp _) (wsOnly_nlsp _) (wsOnly_nlsp _) he]
  rfl

theorem parseClientsLoop_ws {w : List Char} (hw : wsOnly w = true) (fuel : Nat)
    (s : List Char) : parseClientsLoop fuel (w ++ s) = parseClientsLoop fuel s := by
  cases fuel with
  | zero => rfl
  | succ f => simp only [parseClientsLoop, parseIdObj_ws hw]

theorem clientsTail_len (lvl : Nat) (us : List (List Char)) :
    us.length ≤ (clientsTailText lvl us).length := by
  induction us with
  | nil => simp [clientsTailText]
  | cons u us ih => simp [clientsTailText]; omega

theorem parseClientsLoop_spec {lvl : Nat} :
    ∀ (us : List (List Char)) (u : List Char) (fuel : Nat) (rest : List Char),
      us.length < fuel → niceStr u → (∀ x ∈ us, niceStr x) →
      parseClientsLoop fuel
          (clientObjText (lvl + 1) u ++ (clientsTailText lvl us ++ rest))
        = some (u :: us, rest) := by
  intro us
  induction us with
  | nil =>
    intro u fuel rest hf hu _
    match fuel, hf with
    | f + 1, _ =>
      simp only [parseClientsLoop]
      rw [parseIdObj_spec hu]
      simp only []
      rw [show clientsTailText lvl [] ++ rest = nlsp lvl ++ (']' :: rest) from by
          simp [clientsTailText]]
      rw [skipWs_append (wsOnly_nlsp _), skipWs_rbrack]
      rfl
  | cons u' us' ih =>
    intro u fuel rest hf hu hus
    match fuel, hf with
    | f + 1, hf =>
      simp only [parseClientsLoop]
      rw [parseIdObj_spec hu]
      simp only []
      rw [show clientsTailText lvl (u' :: us') ++ rest
            = ',' :: (nlsp (lvl + 1)
                ++ (clientObjText (lvl + 1) u' ++ (clientsTailText lvl us' ++ rest))) from by
          simp [clientsTailText]]
      split
      next s2 hs2 =>
        obtain rfl : nlsp (lvl + 1)
            ++ (clientObjText (lvl + 1) u' ++ (clientsTailText lvl us' ++ rest)) = s2 :=
          (List.cons.injEq _ _ _ _ ▸ hs2).2
        rw [parseClientsLoop_ws (wsOnly_nlsp _)]
        rw [ih u' f rest (by simpa using hf) (hus u' (by simp))
          (fun x hx => hus x (by simp [hx]))]
      next s2 hs2 => exact absurd (List.cons.injEq _ _ _ _ ▸ hs2).1 (by decide)
      next hs1 hs2 => exact absurd rfl (hs1 _)

theorem skipWs_clientObj (lvl : Nat) (u : List Char) (y : List Char) :
    skipWs (clientObjText lvl u ++ y) = clientObjText lvl u ++ y := by
  rw [show clientObjText lvl u ++ y
        = '\x7b' :: ((nlsp (lvl + 1) ++ entryTextCore ("id".toList, some u)
            ++ entriesTail (nlsp (lvl + 1)) (nlsp lvl) []) ++ y) from by
      simp [clientObjText, flatObjText]]
  exact skipWs_lbrace _

theorem parseClientsArr_spec {w : List Char} (hw : wsOnly w = true)
    {us : List (List Char)} (hus : ∀ x ∈ us, niceStr x) (rest : List Char) :
    parseClientsArr (w ++ (clientsArrText 4 us ++ rest)) = some (us, rest) := by
  cases us with
  | nil =>
    unfold parseClientsArr
    rw [skipWs_append hw]
    rw [show clientsArrText 4 [] ++ rest = '[' :: (']' :: rest) from rfl]
    rfl
  | cons u us' =>
    have hshape : clientsArrText 4 (u :: us') ++ rest
        = '[' :: (nlsp 5 ++ (clientObjText 5 u ++ (clientsTailText 4 us' ++ rest))) := by
      simp [clientsArrText]
    unfold parseClientsArr
    rw [skipWs_append hw, hshape, skipWs_lbrack]
    simp only []
    rw [skipWs_append (wsOnly_nlsp _), skipWs_clientObj]
    split
    next r2 hr2 =>
      rw [show clientObjText 5 u ++ (clientsTailText 4 us' ++ rest)
            = '\x7b' :: ((nlsp 6 ++ entryTextCore ("id".toList, some u)
                ++ entriesTail (nlsp 6) (nlsp 5) []) ++ (clientsTailText 4 us' ++ rest)) from by
          simp [clientObjText, flatObjText]] at hr2
      exact absurd (List.cons.injEq _ _ _ _ ▸ hr2).1 (by decide)
    next hr2 =>
      rw [parseClientsLoop_spec us' u _ rest
        (by
          have h1 := clientsTail_len 4 us'
          simp only [List.length_append, List.length_cons]
          omega)
        (hus u (by simp)) (fun x hx => hus x (by simp [hx]))]

theorem xrayProlog_xg1 (r : List Char) : xrayProlog (xg1 ++ r) = some (' ' :: r) := rfl

theorem xrayMid_xg2 (r : List Char) : xrayMid (xg2 ++ r) = some (' ' :: r) := rfl

theorem xrayClosers_xg3 (r : List Char) : xrayClosers (xg3 ++ r) = some r := rfl

theorem skipWs_strLit (s y : List Char) : skipWs (strLit s ++ y) = strLit s ++ y := by
  rw [show strLit s ++ y = '"' :: (s ++ '"' :: y) from by simp [strLit]]
  rfl

theorem xraySettingsTail_none (us : List (List Char)) (net : List Char) :
    xraySettingsTail us net (xg3 ++ ['\n']) = some ⟨us, net, none, none⟩ := rfl

theorem xraySettingsTail_ws {p : List Char} (hp : niceStr p)
    (us : List (List Char)) (net : List Char) :
    xraySettingsTail us net ((xgWs ++ pathObjText 4 p) ++ (xg3 ++ ['\n']))
      = some ⟨us, net, some p, none⟩ := by
  rw [show (xgWs ++ pathObjText 4 p) ++ (xg3 ++ ['\n'])
        = ',' :: ("\n                \"wsSettings\": ".toList
            ++ (pathObjText 4 p ++ (xg3 ++ ['\n']))) from rfl]
  unfold xraySettingsTail
  rw [skipWs_comma]
  split
  next t1 ht1 =>
    obtain rfl : "\n                \"wsSettings\": ".toList
        ++ (pathObjText 4 p ++ (xg3 ++ ['\n'])) = t1 :=
      (List.cons.injEq _ _ _ _ ▸ ht1).2
    unfold xrayExtraPart
    rw [show parseStrLit (skipWs ("\n                \"wsSettings\": ".toList
          ++ (pathObjText 4 p ++ (xg3 ++ ['\n']))))
        = some ("wsSettings".toList,
            ':' :: ' ' :: (pathObjText 4 p ++ (xg3 ++ ['\n']))) from rfl]
    simp only [Option.bind]
    rw [show expectTok [':'] (':' :: ' ' :: (pathObjText 4 p ++ (xg3 ++ ['\n'])))
        = some (' ' :: (pathObjText 4 p ++ (xg3 ++ ['\n']))) from rfl]
    simp only [Option.bind]
    rw [show (' ' :: (pathObjText 4 p ++ (xg3 ++ ['\n'])))
        = [' '] ++ (pathObjText 4 p ++ (xg3 ++ ['\n'])) from rfl]
    rw [parseObj1_ws (by decide)]
    have hkey : niceStr ("path".toList) := by decide
    have he : niceEntry ("path".toList, some p) := ⟨hkey, hp⟩
    rw [show pathObjText 4 p
          = flatObjText (nlsp 5) (nlsp 5) (nlsp 4) [("path".toList, some p)] from rfl]
    rw [parseObj1_spec (wsOnly_nlsp _) (wsOnly_nlsp _) (wsOnly_nlsp _) he]
    simp only [Option.bind]
    rw [xrayClosers_xg3]
    rfl
  next t ht => exact (ht _ rfl).elim

theorem xraySettingsTail_xhttp {p : List Char} (hp : niceStr p)
    (us : List (List Char)) (net : List Char) :
    xraySettingsTail us net ((xgX ++ pathObjText 4 p) ++ (xg3 ++ ['\n']))
      = some ⟨us, net, none, some p⟩ := by
  rw [show (xgX ++ pathObjText 4 p) ++ (xg3 ++ ['\n'])
        = ',' :: ("\n                \"xhttpSettings\": ".toList
            ++ (pathObjText 4 p ++ (xg3 ++ ['\n']))) from rfl]
  unfold xraySettingsTail
  rw [skipWs_comma]
  split
  next t1 ht1 =>
    obtain rfl : "\n                \"xhttpSettings\": ".toList
        ++ (pathObjText 4 p ++ (xg3 ++ ['\n'])) = t1 :=
      (List.cons.injEq _ _ _ _ ▸ ht1).2
    unfold xrayExtraPart
    rw [show parseStrLit (skipWs ("\n                \"xhttpSettings\": ".toList
          ++ (pathObjText 4 p ++ (xg3 ++ ['\n']))))
        = some ("xhttpSettings".toList,
            ':' :: ' ' :: (pathObjText 4 p ++ (xg3 ++ ['\n']))) from rfl]
    simp only [Option.bind]
    rw [show expectTok [':'] (':' :: ' ' :: (pathObjText 4 p ++ (xg3 ++ ['\n'])))
        = some (' ' :: (pathObjText 4 p ++ (xg3 ++ ['\n']))) from rfl]
    simp only [Option.bind]
    rw [show (' ' :: (pathObjText 4 p ++ (xg3 ++ ['\n'])))
        = [' '] ++ (pathObjText 4 p ++ (xg3 ++ ['\n'])) from rfl]
    rw [parseObj1_ws (by decide)]
    have hkey : niceStr ("path".toList) := by decide
    have he : niceEntry ("path".toList, some p) := ⟨hkey, hp⟩
    rw [show pathObjText 4 p
          = flatObjText (nlsp 5) (nlsp 5) (nlsp 4) [("path".toList, some p)] from rfl]
    rw [parseObj1_spec (wsOnly_nlsp _) (wsOnly_nlsp _) (wsOnly_nlsp _) he]
    simp only [Option.bind]
    rw [xrayClosers_xg3]
    rfl
  next t ht => exact (ht _ rfl).elim

theorem xrayLoad_xraySave {st : XrayState} (h : niceXray st) :
    xrayLoad (xraySave st) = some st := by
  obtain ⟨cl, net, wsp, xp⟩ := st
  obtain ⟨hcl, hnet, hset⟩ := h
  show parseXray (xrayDocText ⟨cl, net, wsp, xp⟩ ++ ['\n']) = some ⟨cl, net, wsp, xp⟩
  rw [show xrayDocText ⟨cl, net, wsp, xp⟩ ++ ['\n']
        = xg1 ++ (clientsArrText 4 cl ++ (xg2 ++ (strLit net
            ++ (settingsExtra ⟨cl, net, wsp, xp⟩ ++ (xg3 ++ ['\n']))))) from by
      simp [xrayDocText, List.append_assoc]]
  unfold parseXray
  rw [xrayProlog_xg1]
  simp only [Option.bind]
  rw [show (' ' :: (clientsArrText 4 cl ++ (xg2 ++ (strLit net
          ++ (settingsExtra ⟨cl, net, wsp, xp⟩ ++ (xg3 ++ ['\n']))))))
        = [' '] ++ (clientsArrText 4 cl ++ (xg2 ++ (strLit net
          ++ (settingsExtra ⟨cl, net, wsp, xp⟩ ++ (xg3 ++ ['\n']))))) from rfl]
  rw [parseClientsArr_spec (by decide) hcl]
  simp only [Option.bind]
  rw [xrayMid_xg2]
  simp only [Option.bind]
  rw [show skipWs (' ' :: (strLit net
        ++ (settingsExtra ⟨cl, net, wsp, xp⟩ ++ (xg3 ++ ['\n']))))
      = strLit net ++ (settingsExtra ⟨cl, net, wsp, xp⟩ ++ (xg3 ++ ['\n'])) from by
    rw [skipWs_space, skipWs_strLit]]
  rw [parseStrLit_append (niceStr_no_quote hnet)]
  simp only [Option.bind]
  rcases wsp with _ | p <;> rcases xp with _ | q
  · rw [show settingsExtra ⟨cl, net, none, none⟩ = [] from rfl]
    rw [List.nil_append, xraySettingsTail_none]
  · rw [show settingsExtra ⟨cl, net, none, some q⟩ = xgX ++ pathObjText 4 q from rfl]
    rw [xraySettingsTail_xhttp hset]
  · rw [show settingsExtra ⟨cl, net, some p, none⟩ = xgWs ++ pathObjText 4 p from rfl]
    rw [xraySettingsTail_ws hset]
  · exact hset.elim

/-- Claim C5: writing the users mapping and the Xray config with `save()`
and loading them again (`UsersConfig`/`XrayConfig` construction) yields the
identical string-to-string mapping (`sort_keys=True` reorders the file, and
a Python `dict` is the same mapping regardless of entry order, so equality
is stated as lookup equality at every key) and the identical client list in
the same order (the whole `XrayState` is recovered exactly). -/
theorem c5_save_load_roundtrip (m : UsersMap) (st : XrayState)
    (hm : ∀ e ∈ m, niceStr e.1 ∧ niceStr e.2)
    (hnd : (m.map Prod.fst).Nodup) (hst : niceXray st) :
    (∃ m', usersLoad (usersSave m) = some m'
        ∧ ∀ k, lookupKey k m' = lookupKey k m)
      ∧ xrayLoad (xraySave st) = some st
      ∧ (xrayLoad (xraySave st)).map XrayState.clients = some st.clients := by
  refine ⟨⟨sortEntries m, usersLoad_usersSave hm, fun k => lookup_sortEntries hnd k⟩,
    xrayLoad_xraySave hst, ?_⟩
  rw [xrayLoad_xraySave hst]
  rfl

/-- Witness for `c5_save_load_roundtrip` at a one-user mapping and a
one-client `ws` state. -/
theorem c5_witness :
    ((∀ e ∈ ([("a".toList, "alice".toList)] : UsersMap), niceStr e.1 ∧ niceStr e.2)
      ∧ (([("a".toList, "alice".toList)] : UsersMap).map Prod.fst).Nodup
      ∧ niceXray ⟨["u".toList], "ws".toList, some "/p".toList, none⟩)
    ∧ ((∃ m', usersLoad (usersSave [("a".toList, "alice".toList)]) = some m'
          ∧ ∀ k, lookupKey k m' = lookupKey k [("a".toList, "alice".toList)])
        ∧ xrayLoad (xraySave ⟨["u".toList], "ws".toList, some "/p".toList, none⟩)
            = some ⟨["u".toList], "ws".toList, some "/p".toList, none⟩
        ∧ (xrayLoad (xraySave ⟨["u".toList], "ws".toList, some "/p".toList, none⟩)).map
            XrayState.clients = some ["u".toList]) :=
  ⟨⟨by decide, by decide, by decide⟩,
    c5_save_load_roundtrip _ _ (by decide) (by decide) (by decide)⟩

theorem lookup_updEntry_self (m : List (List Char × α)) (k : List Char) (v : α) :
    lookupKey k (updEntry m k v) = some v := by
  induction m with
  | nil => simp [updEntry, lookupKey]
  | cons e t ih =>
    obtain ⟨k1, v1⟩ := e
    by_cases h : k1 = k
    · simp [updEntry, h, lookupKey]
    · simp [updEntry, h, lookupKey, ih]

theorem lookup_updEntry_ne {k' k : List Char} (hk : k' ≠ k)
    (m : List (List Char × α)) (v : α) :
    lookupKey k' (updEntry m k v) = lookupKey k' m := by
  have hkk : ¬ (k = k') := fun h => hk h.symm
  induction m with
  | nil => simp [updEntry, lookupKey, hkk]
  | cons e t ih =>
    obtain ⟨k1, v1⟩ := e
    by_cases h : k1 = k
    · have h3 : ¬ (k1 = k') := fun hc => hk (hc.symm.trans h)
      simp [updEntry, h, lookupKey, hkk, h3]
    · by_cases h4 : k1 = k'
      · simp [updEntry, h, lookupKey, h4, hk]
      · simp [updEntry, h, lookupKey, h4, ih]

theorem lookup_not_mem {k : List Char} {m : List (List Char × α)}
    (h : k ∉ m.map Prod.fst) : lookupKey k m = none := by
  induction m with
  | nil => rfl
  | cons e t ih =>
    obtain ⟨k1, v1⟩ := e
    simp only [List.map_cons, List.mem_cons] at h
    push_neg at h
    have h1 : ¬ (k1 = k) := fun hc => h.1 hc.symm
    simp [lookupKey, h1, ih h.2]

theorem lookup_removeEntry_self {m : List (List Char × α)} {k : List Char}
    (hnd : (m.map Prod.fst).Nodup) :
    lookupKey k (removeEntry m k) = none := by
  induction m with
  | nil => rfl
  | cons e t ih =>
    obtain ⟨k1, v1⟩ := e
    simp only [List.map_cons, List.nodup_cons] at hnd
    by_cases h : k1 = k
    · rw [show removeEntry ((k1, v1) :: t) k = t from by simp [removeEntry, h]]
      exact lookup_not_mem (h ▸ hnd.1)
    · rw [show removeEntry ((k1, v1) :: t) k = (k1, v1) :: removeEntry t k from by
        simp [removeEntry, h]]
      simp [lookupKey, h, ih hnd.2]

theorem lookup_removeEntry_ne {k' k : List Char} (hk : k' ≠ k)
    (m : List (List Char × α)) :
    lookupKey k' (removeEntry m k) = lookupKey k' m := by
  induction m with
  | nil => rfl
  | cons e t ih =>
    obtain ⟨k1, v1⟩ := e
    have hkk : ¬ (k = k') := fun hc => hk hc.symm
    by_cases h : k1 = k
    · have h3 : ¬ (k1 = k') := fun hc => hk (hc.symm.trans h)
      simp [removeEntry, h, lookupKey, h3, hkk]
    · by_cases h4 : k1 = k'
      · simp [removeEntry, h, lookupKey, h4, hk]
      · simp [removeEntry, h, lookupKey, h4, ih]

/-- Claim C6: `UsersConfig.__getitem__` raises (`none`) exactly when the
UUID is absent and otherwise returns the stored username;
`__setitem__` inserts or overwrites the entry, leaves every other key
unchanged, and persists the whole mapping; `__delitem__` raises (`none`)
when the UUID is absent, and otherwise removes the entry, leaves every
other key unchanged, and persists the whole mapping. -/
theorem c6_users_ops (s : UsersState) (uuid username name : List Char)
    (hnd : (s.map.map Prod.fst).Nodup) :
    (lookupKey uuid s.map = none → UsersConfig.getItem s uuid = none)
    ∧ (lookupKey uuid s.map = some name → UsersConfig.getItem s uuid = some name)
    ∧ lookupKey uuid (UsersConfig.setItem s uuid username).map = some username
    ∧ (∀ k, k ≠ uuid →
        lookupKey k (UsersConfig.setItem s uuid username).map = lookupKey k s.map)
    ∧ (UsersConfig.setItem s uuid username).file
        = usersSave (UsersConfig.setItem s uuid username).map
    ∧ (lookupKey uuid s.map = none → UsersConfig.delItem s uuid = none)
    ∧ (lookupKey uuid s.map = some name →
        ∃ s', UsersConfig.delItem s uuid = some s'
          ∧ lookupKey uuid s'.map = none
          ∧ (∀ k, k ≠ uuid → lookupKey k s'.map = lookupKey k s.map)
          ∧ s'.file = usersSave s'.map) := by
  refine ⟨fun h => h, fun h => h, lookup_updEntry_self s.map uuid username,
    fun k hk => lookup_updEntry_ne hk s.map username, rfl, ?_, ?_⟩
  · intro h
    simp [UsersConfig.delItem, h]
  · intro h
    refine ⟨⟨removeEntry s.map uuid, usersSave (removeEntry s.map uuid)⟩, ?_, ?_, ?_, rfl⟩
    · simp [UsersConfig.delItem, h]
    · exact lookup_removeEntry_self hnd
    · exact fun k hk => lookup_removeEntry_ne hk s.map

/-- Witness for `c6_users_ops` at a concrete two-user state. -/
theorem c6_witness :
    ((([("a".toList, "alice".toList), ("b".toList, "bob".toList)].map Prod.fst).Nodup)
      ∧ lookupKey "b".toList
          (UsersConfig.setItem ⟨[("a".toList, "alice".toList), ("b".toList, "bob".toList)],
            []⟩ "b".toList "carol".toList).map = some "carol".toList) :=
  ⟨by decide,
    (c6_users_ops ⟨[("a".toList, "alice".toList), ("b".toList, "bob".toList)], []⟩
      "b".toList "carol".toList "bob".toList (by decide)).2.2.1⟩

/-- Claim C7: when some client UUID in the Xray client list is not a key of
the users mapping, `XrayConfig.list` hits an unguarded `KeyError`
(modelled as `none`): there is no explicit guard on the lookup. -/
theorem c7_list_keyerror (st : XrayState) (users : UsersMap) (u : List Char)
    (hmem : u ∈ st.clients) (habs : lookupKey u users = none) :
    XrayConfig.list st users = none := by
  unfold XrayConfig.list
  suffices h : ∀ cl : List (List Char), u ∈ cl → listTableAux users cl = none from
    h st.clients hmem
  intro cl hm
  induction cl with
  | nil => cases hm
  | cons x xs ih =>
    rcases List.mem_cons.mp hm with rfl | hm'
    · simp [listTableAux, habs]
    · cases hx : lookupKey x users <;> simp [listTableAux, hx, ih hm']

/-- Witness for `c7_list_keyerror`: client `u` missing from the users map. -/
theorem c7_witness :
    ("u".toList ∈ (⟨["u".toList], "ws".toList, some "/p".toList, none⟩ : XrayState).clients
      ∧ lookupKey "u".toList ([("a".toList, "alice".toList)] : UsersMap) = none
      ∧ XrayConfig.list ⟨["u".toList], "ws".toList, some "/p".toList, none⟩
          [("a".toList, "alice".toList)] = none) :=
  ⟨by decide, by decide,
    c7_list_keyerror ⟨["u".toList], "ws".toList, some "/p".toList, none⟩
      [("a".toList, "alice".toList)] "u".toList (by decide) (by decide)⟩

/-- Claim C8: whenever at least one of the Caddy, users or Xray config
files does not exist, every `client` invocation (add, list or remove)
reports the missing-config error and returns early with both configs
untouched. -/
theorem c8_client_missing_config (caddyE usersE xrayE : Bool) (action : ClientAction)
    (users : UsersMap) (st : XrayState) (newUuid username : List Char)
    (numInput : Option Int) (h : (caddyE && usersE && xrayE) = false) :
    clientCmd caddyE usersE xrayE action users st newUuid username numInput
      = (.missingConfig, users, st) := by
  simp [clientCmd, h]

/-- Witness for `c8_client_missing_config` with only the users file
missing. -/
theorem c8_witness :
    ((true && false && true) = false
      ∧ clientCmd true false true ClientAction.add [] ⟨[], "ws".toList, none, none⟩
          "u".toList "alice".toList none
        = (ClientOut.missingConfig, [], ⟨[], "ws".toList, none, none⟩)) :=
  ⟨by decide, c8_client_missing_config true false true ClientAction.add []
    ⟨[], "ws".toList, none, none⟩ "u".toList "alice".toList none (by decide)⟩

/-- Claim C9: with both config files present, a zero client count makes
`connstr` report the no-clients error even when `--uuid` was given; with a
non-zero count, the given `--uuid` string — even one that occurs in neither
config — is embedded verbatim as the `id` field of the emitted vmess
descriptor, with no membership check. -/
theorem c9_connstr_uuid_unchecked (domain : List Char) (st : XrayState)
    (u : List Char) (numInput : Option Int) (hu : u ∉ st.clients) :
    (st.clients = [] → connstrCmd true true domain st (some u) numInput = .noClients)
    ∧ (st.clients ≠ [] → connstrCmd true true domain st (some u) numInput
        = .printed (connstrOutput domain u st.network (XrayConfig.path st)))
    ∧ lookupKey "id".toList (paramsEntries domain u st.network (XrayConfig.path st))
        = some (some u) := by
  refine ⟨?_, ?_, rfl⟩
  · intro h
    simp [connstrCmd, XrayConfig.count, h]
  · intro h
    simp [connstrCmd, XrayConfig.count, List.length_eq_zero, h]

/-- Witness for `c9_connstr_uuid_unchecked`: `--uuid zzz` is not a client
UUID, yet the command prints the vmess string embedding it. -/
theorem c9_witness :
    ("zzz".toList ∉ (⟨["u".toList], "ws".toList, some "/p".toList, none⟩ : XrayState).clients
      ∧ ((⟨["u".toList], "ws".toList, some "/p".toList, none⟩ : XrayState).clients ≠ [] →
        connstrCmd true true "d".toList ⟨["u".toList], "ws".toList, some "/p".toList, none⟩
            (some "zzz".toList) none
          = .printed (connstrOutput "d".toList "zzz".toList "ws".toList
              (XrayConfig.path ⟨["u".toList], "ws".toList, some "/p".toList, none⟩)))) :=
  ⟨by decide,
    (c9_connstr_uuid_unchecked "d".toList ⟨["u".toList], "ws".toList, some "/p".toList, none⟩
      "zzz".toList none (by decide)).2.1⟩

/-- Claim C10: the `generate` subparser defaults `--domain` to `localhost`
and `--transport` to `xhttp`, accepts exactly `ws` and `xhttp` as
transports, and rejects every other transport string. -/
theorem c10_generate_defaults :
    (generateParseArgs none none = some ("localhost".toList, Transport.xhttp))
    ∧ (∀ d, generateParseArgs (some d) none = some (d, Transport.xhttp))
    ∧ (∀ d, generateParseArgs d (some "ws".toList)
        = some (d.getD "localhost".toList, Transport.ws))
    ∧ (∀ d, generateParseArgs d (some "xhttp".toList)
        = some (d.getD "localhost".toList, Transport.xhttp))
    ∧ (∀ d t, t ≠ "ws".toList → t ≠ "xhttp".toList →
        generateParseArgs d (some t) = none) := by
  refine ⟨rfl, fun d => rfl, fun d => rfl, fun d => rfl, fun d t h1 h2 => ?_⟩
  unfold generateParseArgs parseTransport
  simp only []
  rw [if_neg h1, if_neg h2]
  rfl

/-- Witness for `c10_generate_defaults`: the transport `tcp` is rejected. -/
theorem c10_witness :
    ("tcp".toList ≠ "ws".toList ∧ "tcp".toList ≠ "xhttp".toList
      ∧ generateParseArgs (some "example.com".toList) (some "tcp".toList) = none) :=
  ⟨by decide, by decide,
    c10_generate_defaults.2.2.2.2 (some "example.com".toList) "tcp".toList
      (by decide) (by decide)⟩

theorem decChar_encChar : ∀ n, n < 64 → decChar (encChar n) = some n := by decide

theorem encChar_ne_pad : ∀ n, n < 64 → encChar n ≠ '=' := by decide

theorem b64_roundtrip : ∀ bs : List Nat, (∀ b ∈ bs, b < 256) →
    b64decode (b64encode bs) = some bs
  | [], _ => rfl
  | [a], h => by
    have ha : a < 256 := h a (by simp)
    simp only [b64encode]
    simp only [b64decode]
    rw [if_pos (by simp)]
    rw [decChar_encChar _ (by omega), decChar_encChar _ (by omega)]
    simp only []
    have hval : (a * 65536 / 262144 * 262144 + a * 65536 / 4096 % 64 * 4096) / 65536 = a := by
      omega
    rw [hval]
  | [a, b], h => by
    have ha : a < 256 := h a (by simp)
    have hb : b < 256 := h b (by simp)
    simp only [b64encode]
    simp only [b64decode]
    rw [if_neg (fun hc => encChar_ne_pad _ (by omega) hc.1)]
    rw [if_pos (by simp)]
    rw [decChar_encChar _ (by omega), decChar_encChar _ (by omega),
      decChar_encChar _ (by omega)]
    simp only []
    have h1 : ((a * 65536 + b * 256) / 262144 * 262144
        + (a * 65536 + b * 256) / 4096 % 64 * 4096
        + (a * 65536 + b * 256) / 64 % 64 * 64) / 65536 = a := by omega
    have h2 : ((a * 65536 + b * 256) / 262144 * 262144
        + (a * 65536 + b * 256) / 4096 % 64 * 4096
        + (a * 65536 + b * 256) / 64 % 64 * 64) / 256 % 256 = b := by omega
    rw [h1, h2]
  | a :: b :: c :: rest, h => by
    have ha : a < 256 := h a (by simp)
    have hb : b < 256 := h b (by simp)
    have hc : c < 256 := h c (by simp)
    have hrest := b64_roundtrip rest (fun x hx => h x (by simp [hx]))
    simp only [b64encode]
    simp only [b64decode]
    rw [if_neg (fun hcc => encChar_ne_pad _ (by omega) hcc.1)]
    rw [if_neg (fun hcc => encChar_ne_pad _ (by omega) hcc.1)]
    rw [decChar_encChar _ (by omega), decChar_encChar _ (by omega),
      decChar_encChar _ (by omega), decChar_encChar _ (by omega)]
    simp only []
    rw [hrest]
    have h1 : ((a * 65536 + b * 256 + c) / 262144 * 262144
        + (a * 65536 + b * 256 + c) / 4096 % 64 * 4096
        + (a * 65536 + b * 256 + c) / 64 % 64 * 64
        + (a * 65536 + b * 256 + c) % 64) / 65536 = a := by omega
    have h2 : ((a * 65536 + b * 256 + c) / 262144 * 262144
        + (a * 65536 + b * 256 + c) / 4096 % 64 * 4096
        + (a * 65536 + b * 256 + c) / 64 % 64 * 64
        + (a * 65536 + b * 256 + c) % 64) / 256 % 256 = b := by omega
    have h3 : ((a * 65536 + b * 256 + c) / 262144 * 262144
        + (a * 65536 + b * 256 + c) / 4096 % 64 * 4096
        + (a * 65536 + b * 256 + c) / 64 % 64 * 64
        + (a * 65536 + b * 256 + c) % 64) % 256 = c := by omega
    rw [h1, h2, h3]
    rfl

theorem ascii_append {x y : List Char} (hx : ∀ c ∈ x, c.toNat < 128)
    (hy : ∀ c ∈ y, c.toNat < 128) : ∀ c ∈ x ++ y, c.toNat < 128 := by
  intro c hc
  rcases List.mem_append.mp hc with h | h
  · exact hx c h
  · exact hy c h

theorem ascii_strLit {s : List Char} (h : niceStr s) :
    ∀ c ∈ strLit s, c.toNat < 128 := by
  intro c hc
  simp only [strLit] at hc
  rcases List.mem_cons.mp hc with rfl | hc2
  · decide
  · rcases List.mem_append.mp hc2 with hc3 | hc3
    · exact (h c hc3).2.1
    · rcases List.mem_singleton.mp hc3 with rfl
      decide

theorem ascii_jvText {v : Option (List Char)} (h : niceVal v) :
    ∀ c ∈ jvText v, c.toNat < 128 := by
  cases v with
  | some s => exact ascii_strLit h
  | none => intro c hc; fin_cases hc <;> decide

theorem ascii_entryTextCore {e : List Char × Option (List Char)} (h : niceEntry e) :
    ∀ c ∈ entryTextCore e, c.toNat < 128 := by
  intro c hc
  simp only [entryTextCore] at hc
  rcases List.mem_append.mp hc with hc2 | hc2
  · exact ascii_strLit h.1 c hc2
  · rcases List.mem_cons.mp hc2 with rfl | hc3
    · decide
    · rcases List.mem_cons.mp hc3 with rfl | hc4
      · decide
      · exact ascii_jvText h.2 c hc4

theorem ascii_entriesTail {sl af : List Char} (hsl : ∀ c ∈ sl, c.toNat < 128)
    (haf : ∀ c ∈ af, c.toNat < 128) :
    ∀ es : List (List Char × Option (List Char)), (∀ x ∈ es, niceEntry x) →
      ∀ c ∈ entriesTail sl af es, c.toNat < 128 := by
  intro es
  induction es with
  | nil =>
    intro _ c hc
    simp only [entriesTail] at hc
    rcases List.mem_append.mp hc with hc2 | hc2
    · exact haf c hc2
    · rcases List.mem_singleton.mp hc2 with rfl
      decide
  | cons e es' ih =>
    intro hes c hc
    simp only [entriesTail] at hc
    rcases List.mem_cons.mp hc with rfl | hc2
    · decide
    · rcases List.mem_append.mp hc2 with hc3 | hc3
      · rcases List.mem_append.mp hc3 with hc4 | hc4
        · exact hsl c hc4
        · exact ascii_entryTextCore (hes e (by simp)) c hc4
      · exact ih (fun x hx => hes x (by simp [hx])) c hc3

theorem ascii_flatObjText {ol sl af : List Char} (hol : ∀ c ∈ ol, c.toNat < 128)
    (hsl : ∀ c ∈ sl, c.toNat < 128) (haf : ∀ c ∈ af, c.toNat < 128)
    (es : List (List Char × Option (List Char))) (hes : ∀ x ∈ es, niceEntry x) :
    ∀ c ∈ flatObjText ol sl af es, c.toNat < 128 := by
  cases es with
  | nil => intro c hc; fin_cases hc <;> decide
  | cons e es' =>
    intro c hc
    simp only [flatObjText] at hc
    rcases List.mem_cons.mp hc with rfl | hc2
    · decide
    · rcases List.mem_append.mp hc2 with hc3 | hc3
      · rcases List.mem_append.mp hc3 with hc4 | hc4
        · exact hol c hc4
        · exact ascii_entryTextCore (hes e (by simp)) c hc4
      · exact ascii_entriesTail hsl haf es' (fun x hx => hes x (by simp [hx])) c hc3

theorem strToBytes_lt {s : List Char} (h : ∀ c ∈ s, c.toNat < 128) :
    ∀ b ∈ strToBytes s, b < 256 := by
  intro b hb
  obtain ⟨c, hc, rfl⟩ := List.mem_map.mp hb
  exact lt_trans (h c hc) (by norm_num)

theorem bytesToChars_strToBytes (s : List Char) :
    bytesToChars (strToBytes s) = s := by
  unfold bytesToChars strToBytes
  induction s with
  | nil => rfl
  | cons c cs ih => simp only [List.map_cons, Char.ofNat_toNat] at ih ⊢; rw [ih]

theorem nice_paramsEntries {d u n p : List Char} (hd : niceStr d) (hu : niceStr u)
    (hn : niceStr n) (hp : niceStr p) :
    ∀ x ∈ paramsEntries d u n (some p), niceEntry x := by
  intro x hx
  simp only [paramsEntries, List.mem_cons, List.not_mem_nil, or_false] at hx
  have k1 : niceStr "add".toList := by decide
  have k2 : niceStr "aid".toList := by decide
  have k3 : niceStr "host".toList := by decide
  have k4 : niceStr "id".toList := by decide
  have k5 : niceStr "net".toList := by decide
  have k6 : niceStr "path".toList := by decide
  have k7 : niceStr "port".toList := by decide
  have k8 : niceStr "ps".toList := by decide
  have k9 : niceStr "tls".toList := by decide
  have k10 : niceStr "type".toList := by decide
  have k11 : niceStr "v".toList := by decide
  have v0 : niceStr "0".toList := by decide
  have v443 : niceStr "443".toList := by decide
  have vtls : niceStr "tls".toList := by decide
  have vnone : niceStr "none".toList := by decide
  have v2 : niceStr "2".toList := by decide
  rcases hx with rfl | rfl | rfl | rfl | rfl | rfl | rfl | rfl | rfl | rfl | rfl
  · exact ⟨k1, hd⟩
  · exact ⟨k2, v0⟩
  · exact ⟨k3, hd⟩
  · exact ⟨k4, hu⟩
  · exact ⟨k5, hn⟩
  · exact ⟨k6, hp⟩
  · exact ⟨k7, v443⟩
  · exact ⟨k8, hd⟩
  · exact ⟨k9, vtls⟩
  · exact ⟨k10, vnone⟩
  · exact ⟨k11, v2⟩

/-- Claim C4: for a selected client UUID the `connstr` command prints
`vmess://` followed by base64 whose decoding is exactly the UTF-8 bytes of
the JSON parameter object; parsing that JSON yields the parameter entries
with the requested UUID at `id`, the configured transport's network path at
`path`, port `"443"`, AlterId `"0"` at `aid`, protocol version `"2"` at
`v`, and TLS enabled (`"tls": "tls"`). -/
theorem c4_connstr_decodes (domain uuid : List Char) (st : XrayState)
    (spath : List Char) (hpath : XrayConfig.path st = some spath)
    (hd : niceStr domain) (hu : niceStr uuid) (hn : niceStr st.network)
    (hp : niceStr spath) :
    ∃ payload es,
      connstrOutput domain uuid st.network (XrayConfig.path st)
          = "vmess://".toList ++ payload
        ∧ b64decode payload
            = some (strToBytes (paramsText domain uuid st.network (some spath)))
        ∧ parseFlatObj (bytesToChars
            (strToBytes (paramsText domain uuid st.network (some spath)))) = some es
        ∧ lookupKey "id".toList es = some (some uuid)
        ∧ lookupKey "path".toList es = some (some spath)
        ∧ lookupKey "port".toList es = some (some "443".toList)
        ∧ lookupKey "aid".toList es = some (some "0".toList)
        ∧ lookupKey "v".toList es = some (some "2".toList)
        ∧ lookupKey "tls".toList es = some (some "tls".toList) := by
  refine ⟨b64encode (strToBytes (paramsText domain uuid st.network (some spath))),
    paramsEntries domain uuid st.network (some spath),
    ?_, ?_, ?_, rfl, rfl, rfl, rfl, rfl, rfl⟩
  · rw [connstrOutput, hpath]
  · exact b64_roundtrip _ (strToBytes_lt
      (ascii_flatObjText (by intro c hc; cases hc)
        (by intro c hc; fin_cases hc; decide) (by intro c hc; cases hc)
        _ (nice_paramsEntries hd hu hn hp)))
  · rw [bytesToChars_strToBytes]
    have h := @parseFlatObj_append [] [' '] [] []
      (by decide) (by decide) (by decide) (by decide)
      (paramsEntries domain uuid st.network (some spath))
      (nice_paramsEntries hd hu hn hp)
    rwa [List.append_nil] at h

/-- Witness for `c4_connstr_decodes` at concrete domain, UUID, network and
path. -/
theorem c4_witness :
    (XrayConfig.path ⟨["u-1".toList], "ws".toList, some "/p".toList, none⟩
        = some "/p".toList
      ∧ niceStr "d.example".toList ∧ niceStr "u-1".toList
      ∧ niceStr "ws".toList ∧ niceStr "/p".toList)
    ∧ (∃ payload es,
        connstrOutput "d.example".toList "u-1".toList "ws".toList
            (XrayConfig.path ⟨["u-1".toList], "ws".toList, some "/p".toList, none⟩)
          = "vmess://".toList ++ payload
        ∧ b64decode payload
            = some (strToBytes (paramsText "d.example".toList "u-1".toList "ws".toList
                (some "/p".toList)))
        ∧ parseFlatObj (bytesToChars
            (strToBytes (paramsText "d.example".toList "u-1".toList "ws".toList
              (some "/p".toList)))) = some es
        ∧ lookupKey "id".toList es = some (some "u-1".toList)
        ∧ lookupKey "path".toList es = some (some "/p".toList)
        ∧ lookupKey "port".toList es = some (some "443".toList)
        ∧ lookupKey "aid".toList es = some (some "0".toList)
        ∧ lookupKey "v".toList es = some (some "2".toList)
        ∧ lookupKey "tls".toList es = some (some "tls".toList)) :=
  ⟨⟨by decide, by decide, by decide, by decide, by decide⟩,
    c4_connstr_decodes "d.example".toList "u-1".toList
      ⟨["u-1".toList], "ws".toList, some "/p".toList, none⟩ "/p".toList
      (by decide) (by decide) (by decide) (by decide) (by decide)⟩

theorem hasPair_not_mem {a b : Char} : ∀ {l : List Char}, a ∉ l → hasPair a b l = false := by
  intro l
  induction l with
  | nil => intro _; rfl
  | cons c cs ih =>
    intro h
    cases cs with
    | nil => rfl
    | cons c1 cs' =>
      have hca : ¬ (c = a) := fun hc => h (by simp [hc])
      have h2 : a ∉ c1 :: cs' := fun hc => h (by simp [hc])
      show ((c = a && c1 = b) || hasPair a b (c1 :: cs')) = false
      rw [ih h2]
      simp [hca]

theorem hasPair_append_false {a b : Char} {x y : List Char}
    (hx : hasPair a b x = false) (hy : hasPair a b y = false)
    (hb : ¬(x.getLast? = some a ∧ y.head? = some b)) :
    hasPair a b (x ++ y) = false := by
  revert hx hb
  induction x with
  | nil => intro _ _; simpa using hy
  | cons x0 xs ih =>
    intro hx hb
    cases xs with
    | nil =>
      cases y with
      | nil => rfl
      | cons y0 ys =>
        have h1 : (decide (x0 = a) && decide (y0 = b)) = false := by
          by_cases hxa : x0 = a
          · by_cases hyb : y0 = b
            · exact absurd ⟨by simp [hxa], by simp [hyb]⟩ hb
            · simp [hyb]
          · simp [hxa]
        show ((x0 = a && y0 = b) || hasPair a b (y0 :: ys)) = false
        rw [h1, hy]
        rfl
    | cons x1 xs' =>
      have hsplit := Bool.or_eq_false_iff.mp
        (show ((x1 = b && false) || hasPair a b (x1 :: xs')) = false from by
          exact (Bool.or_eq_false_iff.mp (show ((x0 = a && x1 = b)
            || hasPair a b (x1 :: xs')) = false from hx)).2 ▸ by simp)
      have h0 : (decide (x0 = a) && decide (x1 = b)) = false :=
        (Bool.or_eq_false_iff.mp (show ((x0 = a && x1 = b)
          || hasPair a b (x1 :: xs')) = false from hx)).1
      have hx' : hasPair a b (x1 :: xs') = false :=
        (Bool.or_eq_false_iff.mp (show ((x0 = a && x1 = b)
          || hasPair a b (x1 :: xs')) = false from hx)).2
      have hbl : ¬((x1 :: xs').getLast? = some a ∧ y.head? = some b) := by
        intro hc
        exact hb ⟨by rw [List.getLast?_cons_cons]; exact hc.1, hc.2⟩
      show ((x0 = a && x1 = b) || hasPair a b (x1 :: (xs' ++ y))) = false
      rw [h0, show x1 :: (xs' ++ y) = (x1 :: xs') ++ y from rfl, ih hx' hbl]
      rfl

theorem hasPair_cons_right (a b : Char) (s t : List Char) :
    hasPair a b (s ++ (a :: b :: t)) = true := by
  induction s with
  | nil => simp [hasPair]
  | cons s0 ss ih =>
    cases ss with
    | nil =>
      show hasPair a b (s0 :: a :: b :: t) = true
      show ((s0 = a && a = b) || hasPair a b (a :: b :: t)) = true
      rw [show hasPair a b (a :: b :: t) = ((a = a && b = b) || hasPair a b (b :: t))
          from rfl]
      simp
    | cons s1 ss' =>
      have ihx : hasPair a b (s1 :: (ss' ++ (a :: b :: t))) = true := by
        simpa using ih
      show ((s0 = a && s1 = b) || hasPair a b (s1 :: (ss' ++ (a :: b :: t)))) = true
      rw [ihx]
      simp

theorem not_infix_of_hasPair {a b : Char} {r l : List Char}
    (hp : hasPair a b l = false) : ¬((a :: b :: r) <:+: l) := by
  intro h
  obtain ⟨s, t, hst⟩ := h
  rw [← hst] at hp
  rw [show s ++ (a :: b :: r) ++ t = s ++ (a :: b :: (r ++ t)) from by simp] at hp
  rw [hasPair_cons_right] at hp
  cases hp

theorem hasPair_vshape {b : Char} {v l2 : List Char} (hv : '\x7b' ∉ v)
    (h2 : hasPair '\x7b' b l2 = false) :
    hasPair '\x7b' b (('/' :: v) ++ (l2 ++ [])) = false := by
  have hv' : '\x7b' ∉ '/' :: v := by
    intro hm
    rcases List.mem_cons.mp hm with h | h
    · exact absurd h (by decide)
    · exact hv h
  apply hasPair_append_false (hasPair_not_mem hv')
  · rw [List.append_nil]; exact h2
  · intro hc
    exact absurd (List.mem_of_getLast?_eq_some hc.1) hv'

theorem hasPair_lshape {b : Char} {l1 v l2 : List Char}
    (h1 : hasPair '\x7b' b l1 = false) (h1l : ¬(l1.getLast? = some '\x7b'))
    (hv : '\x7b' ∉ v) (h2 : hasPair '\x7b' b l2 = false) :
    hasPair '\x7b' b (l1 ++ (('/' :: v) ++ (l2 ++ []))) = false := by
  apply hasPair_append_false h1 (hasPair_vshape hv h2)
  intro hc
  exact absurd hc.1 h1l

theorem hasPair_dshape {b : Char} {d l1 v l2 : List Char} (hd : '\x7b' ∉ d)
    (h1 : hasPair '\x7b' b l1 = false) (h1l : ¬(l1.getLast? = some '\x7b'))
    (hv : '\x7b' ∉ v) (h2 : hasPair '\x7b' b l2 = false) :
    hasPair '\x7b' b (d ++ (l1 ++ (('/' :: v) ++ (l2 ++ [])))) = false := by
  apply hasPair_append_false (hasPair_not_mem hd) (hasPair_lshape h1 h1l hv h2)
  intro hc
  exact absurd (List.mem_of_getLast?_eq_some hc.1) hd

/-- Claim C2 (counterexample): the claim's universal quantification over
the domain argument fails: with `--domain` set to the literal string
`\x7bpath\x7d`, `str.format` copies it verbatim into the written Caddyfile
(values are never re-scanned), so a literal `\x7bpath\x7d` remains in the
output. -/
theorem c2_counterexample :
    ∃ pr : List Char × List Char,
      generateFiles Transport.xhttp "\x7bpath\x7d".toList "abc".toList = some pr
        ∧ ("\x7bpath\x7d".toList <:+: pr.1) :=
  ⟨_, rfl, by decide⟩

/-- Claim C2 (amended): `generate` substitutes every placeholder of the
templates, and — provided the domain argument contains no brace character
(the random path `secrets.token_urlsafe()` is URL-safe base64 and never
contains one, here a hypothesis on the token) — no literal
`\x7bdomain\x7d` or `\x7bpath\x7d` remains in either written file. -/
theorem c2_amended (t : Transport) (domain tokPath : List Char)
    (hd : '\x7b' ∉ domain) (hp : '\x7b' ∉ tokPath) :
    ∃ pr : List Char × List Char,
      generateFiles t domain tokPath = some pr
        ∧ ¬("\x7bdomain\x7d".toList <:+: pr.1) ∧ ¬("\x7bpath\x7d".toList <:+: pr.1)
        ∧ ¬("\x7bdomain\x7d".toList <:+: pr.2) ∧ ¬("\x7bpath\x7d".toList <:+: pr.2) := by
  cases t with
  | ws =>
    refine ⟨(domain ++ (caddyLit1 ++ (('/' :: tokPath) ++ (caddyLit2ws ++ []))),
      xrayLit1ws ++ (('/' :: tokPath) ++ (xrayLit2 ++ []))), rfl, ?_, ?_, ?_, ?_⟩
    · exact not_infix_of_hasPair
        (hasPair_dshape hd (by decide) (by decide) hp (by decide))
    · exact not_infix_of_hasPair
        (hasPair_dshape hd (by decide) (by decide) hp (by decide))
    · exact not_infix_of_hasPair
        (hasPair_lshape (by decide) (by decide) hp (by decide))
    · exact not_infix_of_hasPair
        (hasPair_lshape (by decide) (by decide) hp (by decide))
  | xhttp =>
    refine ⟨(domain ++ (caddyLit1 ++ (('/' :: tokPath) ++ (caddyLit2x ++ []))),
      xrayLit1x ++ (('/' :: tokPath) ++ (xrayLit2 ++ []))), rfl, ?_, ?_, ?_, ?_⟩
    · exact not_infix_of_hasPair
        (hasPair_dshape hd (by decide) (by decide) hp (by decide))
    · exact not_infix_of_hasPair
        (hasPair_dshape hd (by decide) (by decide) hp (by decide))
    · exact not_infix_of_hasPair
        (hasPair_lshape (by decide) (by decide) hp (by decide))
    · exact not_infix_of_hasPair
        (hasPair_lshape (by decide) (by decide) hp (by decide))

/-- Witness for `c2_amended` at a brace-free domain and token. -/
theorem c2_witness :
    ('\x7b' ∉ "example.com".toList ∧ '\x7b' ∉ "abc".toList)
    ∧ (∃ pr : List Char × List Char,
        generateFiles Transport.ws "example.com".toList "abc".toList = some pr
          ∧ ¬("\x7bdomain\x7d".toList <:+: pr.1) ∧ ¬("\x7bpath\x7d".toList <:+: pr.1)
          ∧ ¬("\x7bdomain\x7d".toList <:+: pr.2) ∧ ¬("\x7bpath\x7d".toList <:+: pr.2)) :=
  ⟨⟨by decide, by decide⟩,
    c2_amended Transport.ws "example.com".toList "abc".toList (by decide) (by decide)⟩
